import Mathlib

/-!
# Patient-request chaincode (`go_demo.go`): embedding and verification

A shallow embedding of the smart contract in `src/go_demo.go`.

* Go `string` and `[]byte` values are arbitrary byte sequences (`GoString`).
* The ledger is the world state reached through `shim.ChaincodeStubInterface`
  (`GetState`, `PutState`, `GetStateByRange`), with the contract that the
  specification gives for the record store adapter; the adapter does not fail.
* `json.Marshal` and `json.Unmarshal` are embedded for the `Request` struct at
  the level of bytes, after Go's `encoding/json`: the escaping rules of the
  encoder (HTML-safe, U+2028/U+2029, invalid UTF-8 written as U+FFFD), the
  scanner that checks the input, the unquoting of string literals, and the
  case-folding match of member names to fields.
* Every contract method is a function from the ledger and the argument list to
  the `sc.Response` it returns and the ledger it leaves behind. A method that
  can index `args` out of range returns an `Option`, `none` being the panic.

The definitions come first, then the lemmas, then the theorems for the claims
of the specification.
-/

namespace Chaincode

/-! ## Bytes and strings -/

/-- A Go `byte`. -/
abbrev Byte := Fin 256

/-- A Go `string` (or `[]byte`): any finite sequence of bytes, not necessarily
valid UTF-8. -/
abbrev GoString := List Byte

/-- Go's conversion `byte(x)` of a non-negative integer: the low eight bits. -/
def byteOf (n : Nat) : Byte := ⟨n % 256, Nat.mod_lt _ (by decide)⟩

/-- The bytes of an ASCII string literal of the source. -/
def ascii (s : String) : GoString := s.data.map (fun c => byteOf c.toNat)

/-- Go's `<` on strings: lexicographic order on the bytes, a proper initial
segment being smaller. -/
def strLt : GoString → GoString → Bool
  | [], [] => false
  | [], _ :: _ => true
  | _ :: _, [] => false
  | a :: as, b :: bs =>
    if a.val < b.val then true
    else if b.val < a.val then false
    else strLt as bs

/-- Go's `<=` on strings. -/
def strLe (a b : GoString) : Bool := !strLt b a

/-! ## `unicode/utf8` -/

/-- The constant `utf8.RuneError` (U+FFFD). -/
def RuneError : Nat := 0xFFFD

/-- The function `utf8.DecodeRune`: the first rune of `p` and its width in bytes;
`(RuneError, 0)` on empty input and `(RuneError, 1)` on an invalid encoding.
Masks and shifts are written with `%` and `*`:
`p0&0x1F<<6 | b1&0x3F` is `p0 % 32 * 64 + b1 % 64`, and so on. -/
def DecodeRune : GoString → Nat × Nat
  | [] => (RuneError, 0)
  | p0 :: t =>
    if p0.val < 0x80 then (p0.val, 1)
    else if p0.val < 0xC2 ∨ 0xF4 < p0.val then (RuneError, 1)
    else
      let sz : Nat := if p0.val < 0xE0 then 2 else if p0.val < 0xF0 then 3 else 4
      let lo : Nat := if p0.val = 0xE0 then 0xA0 else if p0.val = 0xF0 then 0x90 else 0x80
      let hi : Nat := if p0.val = 0xED then 0x9F else if p0.val = 0xF4 then 0x8F else 0xBF
      match t with
      | [] => (RuneError, 1)
      | b1 :: t1 =>
        if b1.val < lo ∨ hi < b1.val then (RuneError, 1)
        else if sz ≤ 2 then (p0.val % 32 * 64 + b1.val % 64, 2)
        else
          match t1 with
          | [] => (RuneError, 1)
          | b2 :: t2 =>
            if b2.val < 0x80 ∨ 0xBF < b2.val then (RuneError, 1)
            else if sz ≤ 3 then (p0.val % 16 * 4096 + b1.val % 64 * 64 + b2.val % 64, 3)
            else
              match t2 with
              | [] => (RuneError, 1)
              | b3 :: _ =>
                if b3.val < 0x80 ∨ 0xBF < b3.val then (RuneError, 1)
                else (p0.val % 8 * 262144 + b1.val % 64 * 4096 + b2.val % 64 * 64 + b3.val % 64, 4)

/-- The function `utf8.EncodeRune`: the UTF-8 bytes of rune `r`; surrogates and
values above U+10FFFF are written as U+FFFD. -/
def EncodeRune (r : Nat) : GoString :=
  if r ≤ 0x7F then [byteOf r]
  else if r ≤ 0x7FF then [byteOf (0xC0 + r / 64), byteOf (0x80 + r % 64)]
  else if 0x10FFFF < r ∨ (0xD800 ≤ r ∧ r ≤ 0xDFFF) then [0xEF, 0xBF, 0xBD]
  else if r ≤ 0xFFFF then
    [byteOf (0xE0 + r / 4096), byteOf (0x80 + r / 64 % 64), byteOf (0x80 + r % 64)]
  else
    [byteOf (0xF0 + r / 262144), byteOf (0x80 + r / 4096 % 64),
     byteOf (0x80 + r / 64 % 64), byteOf (0x80 + r % 64)]

/-- Loop of `utf8.ValidString`: no decoding step yields `(RuneError, 1)`. -/
def validLoop : Nat → GoString → Bool
  | 0, s => s.isEmpty
  | _ + 1, [] => true
  | fuel + 1, b :: t =>
    if DecodeRune (b :: t) = (RuneError, 1) then false
    else validLoop fuel ((b :: t).drop (DecodeRune (b :: t)).2)

/-- The function `utf8.ValidString`: `s` is well-formed UTF-8. -/
def ValidString (s : GoString) : Bool := validLoop s.length s

/-- Loop of `coerceUTF8`. -/
def coerceLoop : Nat → GoString → GoString
  | 0, _ => []
  | _ + 1, [] => []
  | fuel + 1, b :: t =>
    if DecodeRune (b :: t) = (RuneError, 1) then
      [0xEF, 0xBF, 0xBD] ++ coerceLoop fuel t
    else
      (b :: t).take (DecodeRune (b :: t)).2 ++
        coerceLoop fuel ((b :: t).drop (DecodeRune (b :: t)).2)

/-- Coercion of a string to well-formed UTF-8: every byte that does not start a
well-formed encoding is replaced by U+FFFD (bytes EF BF BD), well-formed
encodings are kept. It describes what a string becomes once `json.Marshal`
has written it and `json.Unmarshal` has read it back. -/
def coerceUTF8 (s : GoString) : GoString := coerceLoop s.length s

/-! ## `encoding/json`: `Marshal` of a `Request` -/

/-- The request structure of the contract (`type Request struct`). -/
structure Request where
  ProviderID : GoString
  PatientID : GoString
  Category : GoString
  Status : GoString
deriving DecidableEq, Repr

/-- The zero value `Request{}`. -/
def Request.zero : Request := ⟨[], [], [], []⟩

/-- The table `hex = "0123456789abcdef"` of the encoder, indexed. -/
def hexDigit (n : Nat) : Byte := (ascii "0123456789abcdef").getD n 0

/-- The table `htmlSafeSet`: the ASCII bytes that the encoder copies unchanged,
all from 0x20 up except `"`, `&`, `<`, `>` and the backslash. -/
def htmlSafe (b : Byte) : Bool :=
  decide (0x20 ≤ b.val) && decide (b.val < 0x80) && decide (b.val ≠ 0x22) &&
    decide (b.val ≠ 0x26) && decide (b.val ≠ 0x3C) && decide (b.val ≠ 0x3E) &&
    decide (b.val ≠ 0x5C)

/-- What the encoder writes for an ASCII byte that is not in `htmlSafeSet`. -/
def escapeByte (b : Byte) : GoString :=
  if b.val = 0x5C ∨ b.val = 0x22 then [0x5C, b]
  else if b.val = 0x0A then [0x5C, 0x6E]
  else if b.val = 0x0D then [0x5C, 0x72]
  else if b.val = 0x09 then [0x5C, 0x74]
  else [0x5C, 0x75, 0x30, 0x30, hexDigit (b.val / 16), hexDigit (b.val % 16)]

/-- Loop of `(*encodeState).string` with `escapeHTML` set, between the
two quotes: safe ASCII bytes are copied, other ASCII bytes escaped, an invalid
byte becomes the six characters `\ufffd`, U+2028 and U+2029 are
escaped, every other rune is copied. -/
def stringLoop : Nat → GoString → GoString
  | 0, _ => []
  | _ + 1, [] => []
  | fuel + 1, b :: t =>
    if b.val < 0x80 then
      (if htmlSafe b then [b] else escapeByte b) ++ stringLoop fuel t
    else if DecodeRune (b :: t) = (RuneError, 1) then
      [0x5C, 0x75, 0x66, 0x66, 0x66, 0x64] ++ stringLoop fuel t
    else if (DecodeRune (b :: t)).1 = 0x2028 ∨ (DecodeRune (b :: t)).1 = 0x2029 then
      [0x5C, 0x75, 0x32, 0x30, 0x32, hexDigit ((DecodeRune (b :: t)).1 % 16)] ++
        stringLoop fuel ((b :: t).drop (DecodeRune (b :: t)).2)
    else
      (b :: t).take (DecodeRune (b :: t)).2 ++
        stringLoop fuel ((b :: t).drop (DecodeRune (b :: t)).2)

/-- The method `(*encodeState).string`: the JSON string literal for `s`. -/
def encodeString (s : GoString) : GoString :=
  [0x22] ++ stringLoop s.length s ++ [0x22]

/-- The call `json.Marshal(request)` for a `Request`: the object with the four
tagged fields in declaration order. It never fails for this type. -/
def Marshal (r : Request) : GoString :=
  ascii "\x7b\"ProviderID\":" ++ encodeString r.ProviderID ++
  ascii ",\"PatientID\":" ++ encodeString r.PatientID ++
  ascii ",\"Category\":" ++ encodeString r.Category ++
  ascii ",\"Status\":" ++ encodeString r.Status ++ ascii "\x7d"

/-! ## `encoding/json`: `Unmarshal` into a `Request`

`json.Unmarshal` first checks that the whole input is one well-formed JSON
value (`checkValid`, the scanner of `scanner.go`) and only then decodes it; an
input that fails the check leaves the target untouched. Here the scanner is a
recursive descent that returns the value it has read, so that one pass does
both. -/

/-- The scanner's `isSpace`: space, tab, carriage return, line feed. -/
def isSpace (c : Byte) : Bool :=
  decide (c.val = 0x20) || decide (c.val = 0x09) || decide (c.val = 0x0D) ||
    decide (c.val = 0x0A)

/-- Skips leading JSON white space. -/
def skipSpace : GoString → GoString
  | [] => []
  | c :: t => if isSpace c then skipSpace t else c :: t

/-- Decimal digit `0`..`9`. -/
def isDigit (c : Byte) : Bool := decide (0x30 ≤ c.val) && decide (c.val ≤ 0x39)

/-- Value of a hexadecimal digit, as in `getu4`; `none` for any other byte. -/
def hexVal (c : Byte) : Option Nat :=
  if 0x30 ≤ c.val ∧ c.val ≤ 0x39 then some (c.val - 0x30)
  else if 0x61 ≤ c.val ∧ c.val ≤ 0x66 then some (c.val - 0x61 + 10)
  else if 0x41 ≤ c.val ∧ c.val ≤ 0x46 then some (c.val - 0x41 + 10)
  else none

/-- The states of the scanner inside a string literal (`stateInString`,
`stateInStringEsc`, `stateInStringEscU`, `stateInStringEscU1`,
`stateInStringEscU12`, `stateInStringEscU123` of `scanner.go`). -/
inductive StringState where
  | inString : StringState
  | inStringEsc : StringState
  | inStringEscU : StringState
  | inStringEscU1 : StringState
  | inStringEscU12 : StringState
  | inStringEscU123 : StringState

/-- The scanner inside a string literal, started in the given state: returns
the bytes up to the closing quote (escapes still in place) and the input after
it. Control bytes and malformed escapes are errors, and so is the end of the
input. -/
def scanStringFrom : StringState → GoString → Option (GoString × GoString)
  | _, [] => none
  | StringState.inString, c :: t =>
    if c.val = 0x22 then some ([], t)
    else if c.val = 0x5C then
      (scanStringFrom StringState.inStringEsc t).map (fun r => (c :: r.1, r.2))
    else if c.val < 0x20 then none
    else (scanStringFrom StringState.inString t).map (fun r => (c :: r.1, r.2))
  | StringState.inStringEsc, c :: t =>
    if c.val = 0x62 ∨ c.val = 0x66 ∨ c.val = 0x6E ∨ c.val = 0x72 ∨ c.val = 0x74 ∨
        c.val = 0x5C ∨ c.val = 0x2F ∨ c.val = 0x22 then
      (scanStringFrom StringState.inString t).map (fun r => (c :: r.1, r.2))
    else if c.val = 0x75 then
      (scanStringFrom StringState.inStringEscU t).map (fun r => (c :: r.1, r.2))
    else none
  | StringState.inStringEscU, c :: t =>
    if (hexVal c).isSome then
      (scanStringFrom StringState.inStringEscU1 t).map (fun r => (c :: r.1, r.2))
    else none
  | StringState.inStringEscU1, c :: t =>
    if (hexVal c).isSome then
      (scanStringFrom StringState.inStringEscU12 t).map (fun r => (c :: r.1, r.2))
    else none
  | StringState.inStringEscU12, c :: t =>
    if (hexVal c).isSome then
      (scanStringFrom StringState.inStringEscU123 t).map (fun r => (c :: r.1, r.2))
    else none
  | StringState.inStringEscU123, c :: t =>
    if (hexVal c).isSome then
      (scanStringFrom StringState.inString t).map (fun r => (c :: r.1, r.2))
    else none

/-- Reads a string literal whose opening quote has been consumed. -/
def scanString (s : GoString) : Option (GoString × GoString) :=
  scanStringFrom StringState.inString s

/-- Skips a run of decimal digits. -/
def skipDigits : GoString → GoString
  | [] => []
  | c :: t => if isDigit c then skipDigits t else c :: t

/-- Scanner states `stateE`, `stateESign`, `stateE0`: an optional exponent. -/
def scanExp : GoString → Option GoString
  | [] => some []
  | c :: t =>
    if c.val = 0x65 ∨ c.val = 0x45 then
      match (match t with
        | [] => []
        | g :: u => if g.val = 0x2B ∨ g.val = 0x2D then u else g :: u) with
      | [] => none
      | d :: u => if isDigit d then some (skipDigits u) else none
    else some (c :: t)

/-- Scanner states `state0`, `stateDot`, `stateDot0`: an optional fraction,
then the exponent. -/
def scanFrac : GoString → Option GoString
  | [] => some []
  | c :: t =>
    if c.val = 0x2E then
      match t with
      | [] => none
      | d :: u => if isDigit d then scanExp (skipDigits u) else none
    else scanExp (c :: t)

/-- Scanner states `stateNeg`, `state1`: a number literal; returns the input
after it. -/
def scanNumber (s : GoString) : Option GoString :=
  match (match s with
    | [] => []
    | c :: t => if c.val = 0x2D then t else c :: t) with
  | [] => none
  | c :: t =>
    if c.val = 0x30 then scanFrac t
    else if 0x31 ≤ c.val ∧ c.val ≤ 0x39 then scanFrac (skipDigits t)
    else none

/-- A JSON value as read by the scanner. String literals keep their raw bytes
(escapes in place); object member names likewise. -/
inductive JValue where
  | null : JValue
  | bool : JValue
  | number : JValue
  | string (raw : GoString) : JValue
  | array (elems : List JValue) : JValue
  | object (members : List (GoString × JValue)) : JValue

/-- Strips a literal word (`true`, `false`, `null`) from the front of the input. -/
def stripWord : GoString → GoString → Option GoString
  | [], s => some s
  | _ :: _, [] => none
  | w :: ws, c :: t => if w = c then stripWord ws t else none

mutual
/-- Scanner state `stateBeginValue`: reads one JSON value at the front of the
input (white space already skipped). The first argument bounds the number of
nested calls; the input length plus one is always enough. -/
def scanValue : Nat → GoString → Option (JValue × GoString)
  | 0, _ => none
  | _ + 1, [] => none
  | fuel + 1, c :: t =>
    if c.val = 0x7B then
      match skipSpace t with
      | [] => none
      | d :: u =>
        if d.val = 0x7D then some (JValue.object [], u)
        else (scanMembers fuel (d :: u)).map (fun r => (JValue.object r.1, r.2))
    else if c.val = 0x5B then
      match skipSpace t with
      | [] => none
      | d :: u =>
        if d.val = 0x5D then some (JValue.array [], u)
        else (scanElements fuel (d :: u)).map (fun r => (JValue.array r.1, r.2))
    else if c.val = 0x22 then
      (scanString t).map (fun r => (JValue.string r.1, r.2))
    else if c.val = 0x2D ∨ isDigit c then
      (scanNumber (c :: t)).map (fun r => (JValue.number, r))
    else if c.val = 0x74 then
      (stripWord (ascii "rue") t).map (fun r => (JValue.bool, r))
    else if c.val = 0x66 then
      (stripWord (ascii "alse") t).map (fun r => (JValue.bool, r))
    else if c.val = 0x6E then
      (stripWord (ascii "ull") t).map (fun r => (JValue.null, r))
    else none
/-- Members of an object, from the opening quote of a member name up to and
including the closing brace. -/
def scanMembers : Nat → GoString → Option (List (GoString × JValue) × GoString)
  | 0, _ => none
  | _ + 1, [] => none
  | fuel + 1, c :: t =>
    if c.val = 0x22 then
      match scanString t with
      | none => none
      | some (key, r1) =>
        match skipSpace r1 with
        | [] => none
        | c2 :: t2 =>
          if c2.val = 0x3A then
            match scanValue fuel (skipSpace t2) with
            | none => none
            | some (v, r2) =>
              match skipSpace r2 with
              | [] => none
              | c3 :: t3 =>
                if c3.val = 0x2C then
                  (scanMembers fuel (skipSpace t3)).map (fun r => ((key, v) :: r.1, r.2))
                else if c3.val = 0x7D then some ([(key, v)], t3)
                else none
          else none
    else none
/-- Elements of an array, from the first byte of an element up to and including
the closing bracket. -/
def scanElements : Nat → GoString → Option (List JValue × GoString)
  | 0, _ => none
  | fuel + 1, s =>
    match scanValue fuel s with
    | none => none
    | some (v, r) =>
      match skipSpace r with
      | [] => none
      | c :: t =>
        if c.val = 0x2C then
          (scanElements fuel (skipSpace t)).map (fun q => (v :: q.1, q.2))
        else if c.val = 0x5D then some ([v], t)
        else none
end

/-- The function `checkValid` together with the reading of the value: the
input is one JSON value surrounded by optional white space. -/
def scanTop (data : GoString) : Option JValue :=
  match scanValue (data.length + 1) (skipSpace data) with
  | none => none
  | some (v, rest) => if skipSpace rest = [] then some v else none

/-- The function `getu4`: the rune of a `\uXXXX` escape at the front of `s`,
or `none` (Go: -1) when `s` does not start with one. -/
def getu4 : GoString → Option Nat
  | c :: e :: h1 :: h2 :: h3 :: h4 :: _ =>
    if c.val = 0x5C ∧ e.val = 0x75 then
      match hexVal h1, hexVal h2, hexVal h3, hexVal h4 with
      | some a, some b, some c, some d => some (((a * 16 + b) * 16 + c) * 16 + d)
      | _, _, _, _ => none
    else none
  | _ => none

/-- First loop of `unquoteBytes`: the length of the initial part of the literal
that needs no unquoting (no backslash, quote or control byte, no invalid UTF-8). -/
def plainLen : Nat → GoString → Nat
  | 0, _ => 0
  | _ + 1, [] => 0
  | fuel + 1, c :: t =>
    if c.val = 0x5C ∨ c.val = 0x22 ∨ c.val < 0x20 then 0
    else if c.val < 0x80 then 1 + plainLen fuel t
    else if DecodeRune (c :: t) = (RuneError, 1) then 0
    else (DecodeRune (c :: t)).2 + plainLen fuel ((c :: t).drop (DecodeRune (c :: t)).2)

/-- The backslash case of the second loop of `unquoteBytes`, for input that
starts with a backslash: the bytes written for the escape sequence and the
input after it; `none` is Go's `ok == false`. A `\u` escape of a UTF-16 high
surrogate is combined with a following low surrogate escape; a surrogate on its
own becomes U+FFFD. -/
def unquoteEscape (s : GoString) : Option (GoString × GoString) :=
  match s.drop 1 with
  | [] => none
  | e :: t1 =>
    if e.val = 0x22 ∨ e.val = 0x5C ∨ e.val = 0x2F ∨ e.val = 0x27 then some ([e], t1)
    else if e.val = 0x62 then some ([0x08], t1)
    else if e.val = 0x66 then some ([0x0C], t1)
    else if e.val = 0x6E then some ([0x0A], t1)
    else if e.val = 0x72 then some ([0x0D], t1)
    else if e.val = 0x74 then some ([0x09], t1)
    else if e.val = 0x75 then
      match getu4 s with
      | none => none
      | some rr =>
        if 0xD800 ≤ rr ∧ rr < 0xE000 then
          match getu4 (s.drop 6) with
          | none => some (EncodeRune 0xFFFD, s.drop 6)
          | some rr1 =>
            if rr < 0xDC00 ∧ 0xDC00 ≤ rr1 ∧ rr1 < 0xE000 then
              some (EncodeRune ((rr - 0xD800) * 1024 + (rr1 - 0xDC00) + 0x10000), s.drop 12)
            else some (EncodeRune 0xFFFD, s.drop 6)
        else some (EncodeRune rr, s.drop 6)
    else none

/-- Second loop of `unquoteBytes`: resolves escapes and coerces the rest to
well-formed UTF-8; `none` is Go's `ok == false`. -/
def unquoteLoop : Nat → GoString → Option GoString
  | 0, _ => some []
  | _ + 1, [] => some []
  | fuel + 1, c :: t =>
    if c.val = 0x5C then
      match unquoteEscape (c :: t) with
      | none => none
      | some (w, rest) => (unquoteLoop fuel rest).map (fun r => w ++ r)
    else if c.val = 0x22 ∨ c.val < 0x20 then none
    else if c.val < 0x80 then (unquoteLoop fuel t).map (fun r => c :: r)
    else
      (unquoteLoop fuel ((c :: t).drop (DecodeRune (c :: t)).2)).map
        (fun r => EncodeRune (DecodeRune (c :: t)).1 ++ r)

/-- The function `unquoteBytes` applied to the bytes between the quotes of a
string literal: the plain initial part is kept as it is, the rest goes through
the unquoting loop. -/
def unquote (s : GoString) : Option GoString :=
  (unquoteLoop s.length (s.drop (plainLen s.length s))).map
    (fun r => s.take (plainLen s.length s) ++ r)

/-- The byte operation `b & caseMask` with `caseMask = ^byte(0x20)`: clears bit 5. -/
def caseMasked (b : Byte) : Nat := if b.val / 32 % 2 = 1 then b.val - 32 else b.val

/-- The function `simpleLetterEqualFold` of `fold.go`: same length and equal bytes
up to bit 5. It is the folding chosen by `foldFunc` for a name made of ASCII
letters other than K and S. -/
def simpleLetterEqualFold : GoString → GoString → Bool
  | [], [] => true
  | [], _ :: _ => false
  | _ :: _, [] => false
  | sb :: s, tb :: t =>
    if caseMasked sb ≠ caseMasked tb then false else simpleLetterEqualFold s t

/-- The function `equalFoldRight` of `fold.go`: ASCII case folding, where in
addition `s`/`S` match U+017F and `k`/`K` match U+212A. It is the folding chosen
by `foldFunc` for an ASCII name that has a K or an S. -/
def equalFoldRight : GoString → GoString → Bool
  | [], t => t.isEmpty
  | _ :: _, [] => false
  | sb :: s, tb :: t =>
    if tb.val < 0x80 then
      if sb ≠ tb then
        if 0x41 ≤ caseMasked sb ∧ caseMasked sb ≤ 0x5A then
          if caseMasked sb ≠ caseMasked tb then false else equalFoldRight s t
        else false
      else equalFoldRight s t
    else if sb.val = 0x73 ∨ sb.val = 0x53 then
      if (DecodeRune (tb :: t)).1 ≠ 0x17F then false
      else equalFoldRight s ((tb :: t).drop (DecodeRune (tb :: t)).2)
    else if sb.val = 0x6B ∨ sb.val = 0x4B then
      if (DecodeRune (tb :: t)).1 ≠ 0x212A then false
      else equalFoldRight s ((tb :: t).drop (DecodeRune (tb :: t)).2)
    else false

/-- The fields of `Request` in declaration order: index, JSON name (the struct
tag) and the folding function that `foldFunc` selects for the name. -/
def requestFields : List (Nat × GoString × (GoString → GoString → Bool)) :=
  [(0, ascii "ProviderID", simpleLetterEqualFold),
   (1, ascii "PatientID", simpleLetterEqualFold),
   (2, ascii "Category", simpleLetterEqualFold),
   (3, ascii "Status", equalFoldRight)]

/-- Field lookup loop of `(*decodeState).object`: an exact match of the key
wins at once, otherwise the first field whose name folds to the key. -/
def findField (key : GoString) :
    List (Nat × GoString × (GoString → GoString → Bool)) → Option Nat → Option Nat
  | [], f => f
  | (i, name, fold) :: rest, f =>
    if name = key then some i
    else if f = none ∧ fold name key = true then findField key rest (some i)
    else findField key rest f

/-- Assignment `v.SetString(s)` to the field with the given index. -/
def setField (r : Request) (i : Nat) (s : GoString) : Request :=
  match i with
  | 0 => { r with ProviderID := s }
  | 1 => { r with PatientID := s }
  | 2 => { r with Category := s }
  | _ => { r with Status := s }

/-- One round of the member loop of `(*decodeState).object` for a `Request`
target: a member whose name matches a field and whose value is a string
literal sets that field; `null`, values of another type (recorded by Go as an
`UnmarshalTypeError`, decoding goes on) and unknown names change nothing. -/
def storeMember (r : Request) (m : GoString × JValue) : Request :=
  match unquote m.1 with
  | none => r
  | some key =>
    match findField key requestFields none, m.2 with
    | some i, JValue.string raw =>
      (match unquote raw with
        | some s => setField r i s
        | none => r)
    | _, _ => r

/-- The call `json.Unmarshal(data, &request)`, whose error result the contract
ignores: `request` after the call. Input that is not well-formed JSON, and a
value that is not an object, leave the request as it was. -/
def Unmarshal (data : GoString) (request : Request) : Request :=
  match scanTop data with
  | some (JValue.object members) => members.foldl storeMember request
  | _ => request

/-! ## The ledger behind `shim.ChaincodeStubInterface` -/

/-- The world state: the list of `(key, value)` bindings, the most recent
binding of a key first. Only the first binding of a key is visible. -/
abbrev Ledger := List (GoString × GoString)

/-- Modelled from the spec: the adapter's `get(key)`, called as
`APIstub.GetState(key)`. It returns the stored value, and no bytes (Go `nil`)
for a key that was never set. -/
def GetState (l : Ledger) (key : GoString) : GoString :=
  match l.lookup key with
  | some value => value
  | none => []

/-- Modelled from the spec: the adapter's `put(key, value)`, called as
`APIstub.PutState(key, value)`: upserts the value for the key. -/
def PutState (l : Ledger) (key value : GoString) : Ledger := (key, value) :: l

/-- Inserts a key in an ascending list of distinct keys. -/
def insertKey (k : GoString) : List GoString → List GoString
  | [] => [k]
  | x :: xs =>
    if strLt k x then k :: x :: xs
    else if strLt x k then x :: insertKey k xs
    else x :: xs

/-- The keys bound in the ledger, ascending in byte order, each once. -/
def sortedKeys : Ledger → List GoString
  | [] => []
  | kv :: rest => insertKey kv.1 (sortedKeys rest)

/-- Modelled from the spec: the adapter's `rangeScan(startKey, endKey)`, called
as `APIstub.GetStateByRange(startKey, endKey)`: the stored entries whose key
lies in `[startKey, endKey)`, in lexicographic byte order of the keys. The
scan and its iterator do not fail. -/
def GetStateByRange (l : Ledger) (startKey endKey : GoString) : List (GoString × GoString) :=
  ((sortedKeys l).filter (fun k => strLe startKey k && strLt k endKey)).map
    (fun k => (k, GetState l k))

/-! ## The contract -/

/-- The message `sc.Response` built by `shim.Success(payload)` or
`shim.Error(msg)`. -/
inductive Response where
  | Success (payload : GoString) : Response
  | Error (msg : GoString) : Response
deriving DecidableEq, Repr

/-- The method `publishRequest`. -/
def publishRequest (l : Ledger) (args : List GoString) : Response × Ledger :=
  match args with
  | [a0, a1, a2, a3] =>
    let request : Request :=
      { ProviderID := a1, PatientID := a2, Category := a3, Status := ascii "pending" }
    let reqAsBytes := Marshal request
    (Response.Success [], PutState l a0 reqAsBytes)
  | _ => (Response.Error (ascii "Incorrect number of arguments. Expecting 4"), l)

/-- The slice `requests` of `initLedger`. -/
def requests : List Request :=
  [⟨ascii "PR0", ascii "PA3", ascii "lifestyle", ascii "pending"⟩,
   ⟨ascii "PR1", ascii "PA2", ascii "history", ascii "accepted"⟩,
   ⟨ascii "PR2", ascii "PA1", ascii "medication", ascii "denied"⟩,
   ⟨ascii "PR3", ascii "PA0", ascii "history", ascii "pending"⟩,
   ⟨ascii "PR0", ascii "PA3", ascii "lifestyle", ascii "accepted"⟩,
   ⟨ascii "PR1", ascii "PA2", ascii "history", ascii "accepted"⟩,
   ⟨ascii "PR2", ascii "PA1", ascii "medication", ascii "accepted"⟩,
   ⟨ascii "PR3", ascii "PA0", ascii "lifestyle", ascii "denied"⟩,
   ⟨ascii "PR0", ascii "PA3", ascii "history", ascii "pending"⟩,
   ⟨ascii "PR1", ascii "PA2", ascii "medication", ascii "pending"⟩]

/-- The function `strconv.Itoa` on a non-negative integer. -/
def Itoa (n : Nat) : GoString := (Nat.toDigits 10 n).map (fun c => byteOf c.toNat)

/-- The loop `for i < len(requests)` of `initLedger`, started at `i`; the first
argument bounds the number of rounds. -/
def initLoop : Nat → Nat → Ledger → Ledger
  | 0, _, l => l
  | fuel + 1, i, l =>
    if h : i < requests.length then
      let reqAsBytes := Marshal (requests.get ⟨i, h⟩)
      initLoop fuel (i + 1) (PutState l (ascii "REQ" ++ Itoa i) reqAsBytes)
    else l

/-- The method `initLedger`. -/
def initLedger (l : Ledger) : Response × Ledger :=
  (Response.Success [], initLoop requests.length 0 l)

/-- The method `response`, the status update. -/
def response (l : Ledger) (args : List GoString) : Response × Ledger :=
  match args with
  | [a0, a1, a2] =>
    let reqAsBytes := GetState l a0
    let request := Unmarshal reqAsBytes Request.zero
    if request.PatientID = a2 then
      let request := { request with Status := a1 }
      let reqAsBytes := Marshal request
      (Response.Success [], PutState l a0 reqAsBytes)
    else (Response.Success [], l)
  | _ => (Response.Error (ascii "Incorrect number of arguments. Expecting 3"), l)

/-- The method `revoke`. -/
def revoke (l : Ledger) (args : List GoString) : Response × Ledger :=
  match args with
  | [a0] =>
    let reqAsBytes := GetState l a0
    let request := Unmarshal reqAsBytes Request.zero
    if request.Status = ascii "accepted" then
      let request := { request with Status := ascii "revoked" }
      let reqAsBytes := Marshal request
      (Response.Success [], PutState l a0 reqAsBytes)
    else (Response.Error (ascii "Cannot revoke."), l)
  | _ => (Response.Error (ascii "Incorrect number of arguments. Expecting 1"), l)

/-- What one round of the query loop appends for an entry that passes the
filter: the six `WriteString` calls after the test. -/
def writeEntry (buffer key value : GoString) : GoString :=
  buffer ++ ascii "\x7b\"Key\":" ++ ascii "\"" ++ key ++ ascii "\"" ++
    ascii ", \"Record\":" ++ value ++ ascii "\x7d"

/-- The loop `for resultsIterator.HasNext()` of `queryPatientRequests` over the
remaining scan results, with the buffer and the flag
`bArrayMemberAlreadyWritten`. The source tests `queryResponse.PatientID`; a scan
result carries only `Key` and `Value`, so the patient is the `PatientID` of the
record decoded from `Value`. Evaluating `args[0]` on an empty argument list
panics: the result is then `none`. -/
def queryLoop (args : List GoString) :
    List (GoString × GoString) → GoString → Bool → Option GoString
  | [], buffer, _ => some buffer
  | queryResponse :: rest, buffer, written =>
    match args with
    | [] => none
    | a0 :: _ =>
      if (Unmarshal queryResponse.2 Request.zero).PatientID = a0 then
        queryLoop args rest
          (writeEntry (if written then buffer ++ ascii "," else buffer)
            queryResponse.1 queryResponse.2) true
      else queryLoop args rest (if written then buffer ++ ascii "," else buffer) written

/-- The method `queryPatientRequests`; `none` when it panics. -/
def queryPatientRequests (l : Ledger) (args : List GoString) : Option (Response × Ledger) :=
  (queryLoop args (GetStateByRange l (ascii "REQ0") (ascii "REQ9")) (ascii "[") false).map
    (fun buffer => (Response.Success (buffer ++ ascii "]"), l))

/-- The method `Invoke`: dispatch on the function name that
`APIstub.GetFunctionAndParameters()` returns. The branch for `revoke` is
commented out in the source, so that name falls through to the error. -/
def Invoke (l : Ledger) (function : GoString) (args : List GoString) :
    Option (Response × Ledger) :=
  if function = ascii "publishRequest" then some (publishRequest l args)
  else if function = ascii "initLedger" then some (initLedger l)
  else if function = ascii "response" then some (response l args)
  else if function = ascii "queryPatientRequests" then queryPatientRequests l args
  else some (Response.Error (ascii "Invalid Smart Contract function name."), l)

/-! ## Vocabulary of the proofs -/

/-- The first byte of a well-formed two-byte encoding. -/
abbrev lead2 (b : Byte) : Prop := 0xC2 ≤ b.val ∧ b.val ≤ 0xDF

/-- The first byte of a well-formed three-byte encoding. -/
abbrev lead3 (b : Byte) : Prop := 0xE0 ≤ b.val ∧ b.val ≤ 0xEF

/-- The first byte of a well-formed four-byte encoding. -/
abbrev lead4 (b : Byte) : Prop := 0xF0 ≤ b.val ∧ b.val ≤ 0xF4

/-- A continuation byte. -/
abbrev cont (b : Byte) : Prop := 0x80 ≤ b.val ∧ b.val ≤ 0xBF

/-- The second byte lies in the range that `acceptRanges` gives for the first. -/
abbrev second (b b1 : Byte) : Prop :=
  cont b1 ∧ (b.val = 0xE0 → 0xA0 ≤ b1.val) ∧ (b.val = 0xED → b1.val ≤ 0x9F) ∧
    (b.val = 0xF0 → 0x90 ≤ b1.val) ∧ (b.val = 0xF4 → b1.val ≤ 0x8F)

/-- The text of one array entry: `{"Key":"<key>", "Record":<value>}`. -/
def entryText (key value : GoString) : GoString :=
  ascii "\x7b\"Key\":\"" ++ key ++ ascii "\", \"Record\":" ++ value ++ ascii "\x7d"

/-- What the query loop appends to its buffer over the given scan results,
starting with the given value of the flag: a comma for every result met once
the flag is set, and the entry of every result whose decoded `PatientID` is the
one asked for. -/
def queryPieces (patientID : GoString) : List (GoString × GoString) → Bool → GoString
  | [], _ => []
  | kv :: rest, written =>
    (if written then ascii "," else []) ++
      (if (Unmarshal kv.2 Request.zero).PatientID = patientID then
        entryText kv.1 kv.2 ++ queryPieces patientID rest true
      else queryPieces patientID rest written)

/-- The payload as the specification words it: an opening bracket, the
entries of the scanned results whose decoded `PatientID` equals `patientID`, in
scan order, separated by one comma between consecutive entries, a closing
bracket. -/
def specPayload (l : Ledger) (patientID : GoString) : GoString :=
  ascii "[" ++
    (ascii ",").intercalate
      (((GetStateByRange l (ascii "REQ0") (ascii "REQ9")).filter
          (fun kv => decide ((Unmarshal kv.2 Request.zero).PatientID = patientID))).map
        (fun kv => entryText kv.1 kv.2)) ++
    ascii "]"

/-- The ledger that `initLedger` leaves when run on the empty ledger. -/
def seeded : Ledger := (initLedger []).2

/-- The bytes that `queryPatientRequests` returns for patient `PA3` on the seeded
ledger. -/
def payloadPA3 : GoString :=
  ascii
    "[\x7b\"Key\":\"REQ0\", \"Record\":\x7b\"ProviderID\":\"PR0\",\"PatientID\":\"PA3\",\"Category\":\"lifestyle\",\"Status\":\"pending\"\x7d\x7d,,,,\x7b\"Key\":\"REQ4\", \"Record\":\x7b\"ProviderID\":\"PR0\",\"PatientID\":\"PA3\",\"Category\":\"lifestyle\",\"Status\":\"accepted\"\x7d\x7d,,,,\x7b\"Key\":\"REQ8\", \"Record\":\x7b\"ProviderID\":\"PR0\",\"PatientID\":\"PA3\",\"Category\":\"history\",\"Status\":\"pending\"\x7d\x7d]"

/-- The bytes that `queryPatientRequests` returns for patient `PA1` on the seeded
ledger. -/
def payloadPA1 : GoString :=
  ascii
    "[\x7b\"Key\":\"REQ2\", \"Record\":\x7b\"ProviderID\":\"PR2\",\"PatientID\":\"PA1\",\"Category\":\"medication\",\"Status\":\"denied\"\x7d\x7d,,,,\x7b\"Key\":\"REQ6\", \"Record\":\x7b\"ProviderID\":\"PR2\",\"PatientID\":\"PA1\",\"Category\":\"medication\",\"Status\":\"accepted\"\x7d\x7d,,]"

/-- The bytes that `queryPatientRequests` returns for patient `PA2` on the seeded
ledger. -/
def payloadPA2 : GoString :=
  ascii
    "[\x7b\"Key\":\"REQ1\", \"Record\":\x7b\"ProviderID\":\"PR1\",\"PatientID\":\"PA2\",\"Category\":\"history\",\"Status\":\"accepted\"\x7d\x7d,,,,\x7b\"Key\":\"REQ5\", \"Record\":\x7b\"ProviderID\":\"PR1\",\"PatientID\":\"PA2\",\"Category\":\"history\",\"Status\":\"accepted\"\x7d\x7d,,,]"

/-- The bytes that `queryPatientRequests` returns for patient `PA3` on a ledger
whose only record is stored under `REQ10`. -/
def payloadREQ10 : GoString :=
  ascii
    "[\x7b\"Key\":\"REQ10\", \"Record\":\x7b\"ProviderID\":\"PR7\",\"PatientID\":\"PA3\",\"Category\":\"history\",\"Status\":\"pending\"\x7d\x7d]"

/-- A ledger whose only record was stored by `publishRequest` under `REQ10`. -/
def ledgerREQ10 : Ledger :=
  (publishRequest [] [ascii "REQ10", ascii "PR7", ascii "PA3", ascii "history"]).2

/-- A key that a JSON string literal carries as it is: well-formed UTF-8 with no
quote, no backslash and no control byte. -/
def verbatimKey (k : GoString) : Bool :=
  k.all (fun c => decide (0x20 ≤ c.val ∧ c.val ≠ 0x22 ∧ c.val ≠ 0x5C)) && ValidString k

/-- The `Key` of one entry of the output: the unquoted string literal under the
first member named `Key` of the entry's members. -/
def keyMember : List (GoString × JValue) → Option GoString
  | [] => none
  | (name, v) :: rest =>
    if name = ascii "Key" then
      match v with
      | JValue.string raw => unquote raw
      | _ => none
    else keyMember rest

/-- Reading of the output after its opening bracket, for the `Key`s appearing in
it: a closing bracket ends the output, a comma is passed over (the output may
hold several commas in a row), anything else has to be a JSON object, read by
the scanner, that has a `Key`. The first argument bounds the number of steps;
the input length plus one is always enough. -/
def readEntries : Nat → GoString → Option (List GoString)
  | 0, _ => none
  | _ + 1, [] => none
  | fuel + 1, c :: t =>
    if c.val = 0x5D then (if t = [] then some [] else none)
    else if c.val = 0x2C then readEntries fuel t
    else
      match scanValue ((c :: t).length + 1) (c :: t) with
      | some (JValue.object members, rest) =>
        match keyMember members with
        | none => none
        | some k => (readEntries fuel rest).map (fun ks => k :: ks)
      | _ => none

/-- The `Key`s appearing in the output of `queryPatientRequests`, in the order
of the output; `none` when the output does not read as a bracketed list of
objects with a `Key`. -/
def outputKeys (payload : GoString) : Option (List GoString) :=
  match payload with
  | [] => none
  | c :: t => if c.val = 0x5B then readEntries (t.length + 1) t else none

/-- A key that closes its own string literal and entry, and opens a second entry
with the `Key` `ZZZ`. -/
def craftedKey : GoString := ascii "REQ1\", \"Record\":1\x7d,\x7b\"Key\":\"ZZZ"

/-- A ledger whose only record was stored by `publishRequest` under `craftedKey`. -/
def ledgerCrafted : Ledger :=
  (publishRequest [] [craftedKey, ascii "PR7", ascii "PA3", ascii "history"]).2

/-- The bytes that `queryPatientRequests` returns for patient `PA3` on
`ledgerCrafted`. -/
def payloadCrafted : GoString :=
  ascii
    "[\x7b\"Key\":\"REQ1\", \"Record\":1\x7d,\x7b\"Key\":\"ZZZ\", \"Record\":\x7b\"ProviderID\":\"PR7\",\"PatientID\":\"PA3\",\"Category\":\"history\",\"Status\":\"pending\"\x7d\x7d]"

/-- A ledger state whose value under `REQ1` is not the encoding of a request: it
closes the entry it is written into and opens a second one with the `Key`
`ZZZ`. No method of the contract writes such a value. -/
def ledgerForeign : Ledger := [(ascii "REQ1", ascii "1\x7d,\x7b\"Key\":\"ZZZ\", \"Record\":2")]

/-- The bytes that `queryPatientRequests` returns for the empty patient
identifier on `ledgerForeign`. -/
def payloadForeign : GoString :=
  ascii "[\x7b\"Key\":\"REQ1\", \"Record\":1\x7d,\x7b\"Key\":\"ZZZ\", \"Record\":2\x7d]"

/-- A ledger with records stored by `publishRequest` under `REQ10` and `REQ5x`. -/
def ledgerREQ5x : Ledger :=
  (publishRequest ledgerREQ10 [ascii "REQ5x", ascii "PR8", ascii "PA3", ascii "lifestyle"]).2

/-- The status vocabulary of the specification. -/
def statusVocabulary : List GoString :=
  [ascii "pending", ascii "accepted", ascii "denied", ascii "revoked"]

/-- The `Status` of the record decoded from the value at `key`. -/
def statusAt (l : Ledger) (key : GoString) : GoString :=
  (Unmarshal (GetState l key) Request.zero).Status

/-- Every record stored in the ledger has its `Status` in the vocabulary: the
test runs over the keys bound in the ledger. -/
def validStatuses (l : Ledger) : Bool :=
  (sortedKeys l).all (fun k => decide (statusAt l k ∈ statusVocabulary))

/-- The world state that a ledger stands for, listed in ascending order of the
keys: every bound key with the value visible at it. Two ledgers with the same
listing answer every `GetState` and `GetStateByRange` alike. -/
def worldState (l : Ledger) : List (GoString × GoString) :=
  (sortedKeys l).map (fun k => (k, GetState l k))

/-- A request with each field coerced to well-formed UTF-8. -/
def coerceRequest (r : Request) : Request :=
  ⟨coerceUTF8 r.ProviderID, coerceUTF8 r.PatientID, coerceUTF8 r.Category, coerceUTF8 r.Status⟩

/-! ## Lemmas -/

/-! ### UTF-8 decoding -/

theorem byteOf_val (b : Byte) : byteOf b.val = b := by
  apply Fin.ext
  simp only [byteOf]
  omega

theorem byteOf_eq (n : Nat) (b : Byte) (h : n % 256 = b.val) : byteOf n = b := by
  apply Fin.ext
  simp only [byteOf]
  exact h

theorem decodeRune_ascii (b : Byte) (t : GoString) (h : b.val < 0x80) :
    DecodeRune (b :: t) = (b.val, 1) := by
  simp only [DecodeRune, if_pos h]

theorem second_iff (b b1 : Byte) :
    ¬ (b1.val < (if b.val = 0xE0 then 0xA0 else if b.val = 0xF0 then 0x90 else 0x80) ∨
        (if b.val = 0xED then 0x9F else if b.val = 0xF4 then 0x8F else 0xBF) < b1.val) ↔
      second b b1 := by
  unfold second cont
  split_ifs <;> omega

theorem decodeRune_two (p0 b1 : Byte) (y : GoString) (h0 : lead2 p0) (h1 : second p0 b1) :
    DecodeRune (p0 :: b1 :: y) = (p0.val % 32 * 64 + b1.val % 64, 2) := by
  have e8 := (second_iff p0 b1).2 h1
  unfold lead2 at h0
  have e1 : ¬ p0.val < 0x80 := by omega
  have e2 : ¬ (p0.val < 0xC2 ∨ 0xF4 < p0.val) := by omega
  have e3 : p0.val < 0xE0 := by omega
  simp only [DecodeRune, if_neg e1, if_neg e2, if_pos e3, if_neg e8, le_refl, if_true]

theorem decodeRune_three (p0 b1 b2 : Byte) (y : GoString) (h0 : lead3 p0) (h1 : second p0 b1)
    (h2 : cont b2) :
    DecodeRune (p0 :: b1 :: b2 :: y) =
      (p0.val % 16 * 4096 + b1.val % 64 * 64 + b2.val % 64, 3) := by
  have e8 := (second_iff p0 b1).2 h1
  unfold lead3 at h0
  unfold cont at h2
  have e1 : ¬ p0.val < 0x80 := by omega
  have e2 : ¬ (p0.val < 0xC2 ∨ 0xF4 < p0.val) := by omega
  have e3 : ¬ p0.val < 0xE0 := by omega
  have e4 : p0.val < 0xF0 := by omega
  have e5 : ¬ (b2.val < 0x80 ∨ 0xBF < b2.val) := by omega
  have e6 : ¬ (3 ≤ 2) := by omega
  simp only [DecodeRune, if_neg e1, if_neg e2, if_neg e3, if_pos e4, if_neg e8, if_neg e5,
    if_neg e6, le_refl, if_true]

theorem decodeRune_four (p0 b1 b2 b3 : Byte) (y : GoString) (h0 : lead4 p0) (h1 : second p0 b1)
    (h2 : cont b2) (h3 : cont b3) :
    DecodeRune (p0 :: b1 :: b2 :: b3 :: y) =
      (p0.val % 8 * 262144 + b1.val % 64 * 4096 + b2.val % 64 * 64 + b3.val % 64, 4) := by
  have e8 := (second_iff p0 b1).2 h1
  unfold lead4 at h0
  unfold cont at h2 h3
  have e1 : ¬ p0.val < 0x80 := by omega
  have e2 : ¬ (p0.val < 0xC2 ∨ 0xF4 < p0.val) := by omega
  have e3 : ¬ p0.val < 0xE0 := by omega
  have e4 : ¬ p0.val < 0xF0 := by omega
  have e5 : ¬ (b2.val < 0x80 ∨ 0xBF < b2.val) := by omega
  have e7 : ¬ (b3.val < 0x80 ∨ 0xBF < b3.val) := by omega
  have e6 : ¬ (4 ≤ 2) := by omega
  have e9 : ¬ (4 ≤ 3) := by omega
  simp only [DecodeRune, if_neg e1, if_neg e2, if_neg e3, if_neg e4, if_neg e8, if_neg e5,
    if_neg e7, if_neg e6, if_neg e9]

/-- The shapes of a well-formed multi-byte encoding at the front of a string. -/
theorem decodeRune_cases (b : Byte) (t : GoString) (hb : 0x80 ≤ b.val)
    (h : DecodeRune (b :: t) ≠ (RuneError, 1)) :
    (∃ b1 y, t = b1 :: y ∧ lead2 b ∧ second b b1) ∨
    (∃ b1 b2 y, t = b1 :: b2 :: y ∧ lead3 b ∧ second b b1 ∧ cont b2) ∨
    (∃ b1 b2 b3 y, t = b1 :: b2 :: b3 :: y ∧ lead4 b ∧ second b b1 ∧ cont b2 ∧ cont b3) := by
  have e1 : ¬ b.val < 0x80 := by omega
  by_cases e2 : b.val < 0xC2 ∨ 0xF4 < b.val
  · exact absurd (by simp only [DecodeRune, if_neg e1, if_pos e2]) h
  rcases t with _ | ⟨b1, t1⟩
  · exact absurd (by simp only [DecodeRune, if_neg e1, if_neg e2]) h
  by_cases e8 : (b1.val < (if b.val = 0xE0 then 0xA0 else if b.val = 0xF0 then 0x90 else 0x80) ∨
        (if b.val = 0xED then 0x9F else if b.val = 0xF4 then 0x8F else 0xBF) < b1.val)
  · exact absurd (by simp only [DecodeRune, if_neg e1, if_neg e2, if_pos e8]) h
  have hs := (second_iff b b1).1 e8
  by_cases e3 : b.val < 0xE0
  · exact Or.inl ⟨b1, t1, rfl, ⟨by omega, by omega⟩, hs⟩
  have n32 : ¬ (3 ≤ 2) := by omega
  have n42 : ¬ (4 ≤ 2) := by omega
  have n43 : ¬ (4 ≤ 3) := by omega
  rcases t1 with _ | ⟨b2, t2⟩
  · exact absurd (by simp only [DecodeRune, if_neg e1, if_neg e2, if_neg e8, if_neg e3]; split_ifs <;> rfl) h
  by_cases e5 : b2.val < 0x80 ∨ 0xBF < b2.val
  · exact absurd (by simp only [DecodeRune, if_neg e1, if_neg e2, if_neg e8, if_neg e3, if_pos e5]; split_ifs <;> rfl) h
  by_cases e4 : b.val < 0xF0
  · exact Or.inr (Or.inl ⟨b1, b2, t2, rfl, ⟨by omega, by omega⟩, hs, ⟨by omega, by omega⟩⟩)
  rcases t2 with _ | ⟨b3, t3⟩
  · exact absurd (by simp only [DecodeRune, if_neg e1, if_neg e2, if_neg e8, if_neg e3, if_neg e5, if_neg e4, if_neg n42, if_neg n43]) h
  by_cases e7 : b3.val < 0x80 ∨ 0xBF < b3.val
  · exact absurd (by simp only [DecodeRune, if_neg e1, if_neg e2, if_neg e8, if_neg e3, if_neg e5, if_neg e4, if_neg n42, if_neg n43, if_pos e7]) h
  exact Or.inr (Or.inr ⟨b1, b2, b3, t3, rfl, ⟨by omega, by omega⟩, hs, ⟨by omega, by omega⟩,
    ⟨by omega, by omega⟩⟩)

theorem encodeRune_two (p0 b1 : Byte) (h0 : lead2 p0) (h1 : second p0 b1) :
    EncodeRune (p0.val % 32 * 64 + b1.val % 64) = [p0, b1] := by
  unfold lead2 at h0
  unfold second cont at h1
  have hp := p0.isLt
  have e1 : ¬ (p0.val % 32 * 64 + b1.val % 64 ≤ 0x7F) := by omega
  have e2 : p0.val % 32 * 64 + b1.val % 64 ≤ 0x7FF := by omega
  simp only [EncodeRune, if_neg e1, if_pos e2]
  rw [byteOf_eq _ p0 (by omega), byteOf_eq _ b1 (by omega)]

theorem encodeRune_three (p0 b1 b2 : Byte) (h0 : lead3 p0) (h1 : second p0 b1) (h2 : cont b2) :
    EncodeRune (p0.val % 16 * 4096 + b1.val % 64 * 64 + b2.val % 64) = [p0, b1, b2] := by
  unfold lead3 at h0
  unfold second cont at h1
  unfold cont at h2
  have e1 : ¬ (p0.val % 16 * 4096 + b1.val % 64 * 64 + b2.val % 64 ≤ 0x7F) := by omega
  have e2 : ¬ (p0.val % 16 * 4096 + b1.val % 64 * 64 + b2.val % 64 ≤ 0x7FF) := by omega
  have e3 : ¬ (0x10FFFF < p0.val % 16 * 4096 + b1.val % 64 * 64 + b2.val % 64 ∨
      (0xD800 ≤ p0.val % 16 * 4096 + b1.val % 64 * 64 + b2.val % 64 ∧
       p0.val % 16 * 4096 + b1.val % 64 * 64 + b2.val % 64 ≤ 0xDFFF)) := by omega
  have e4 : p0.val % 16 * 4096 + b1.val % 64 * 64 + b2.val % 64 ≤ 0xFFFF := by omega
  simp only [EncodeRune, if_neg e1, if_neg e2, if_neg e3, if_pos e4]
  rw [byteOf_eq _ p0 (by omega), byteOf_eq _ b1 (by omega), byteOf_eq _ b2 (by omega)]

theorem encodeRune_four (p0 b1 b2 b3 : Byte) (h0 : lead4 p0) (h1 : second p0 b1) (h2 : cont b2)
    (h3 : cont b3) :
    EncodeRune (p0.val % 8 * 262144 + b1.val % 64 * 4096 + b2.val % 64 * 64 + b3.val % 64) =
      [p0, b1, b2, b3] := by
  unfold lead4 at h0
  unfold second cont at h1
  unfold cont at h2 h3
  have e1 : ¬ (p0.val % 8 * 262144 + b1.val % 64 * 4096 + b2.val % 64 * 64 + b3.val % 64 ≤ 0x7F) := by
    omega
  have e2 : ¬ (p0.val % 8 * 262144 + b1.val % 64 * 4096 + b2.val % 64 * 64 + b3.val % 64 ≤ 0x7FF) := by
    omega
  have e3 : ¬ (0x10FFFF < p0.val % 8 * 262144 + b1.val % 64 * 4096 + b2.val % 64 * 64 + b3.val % 64 ∨
      (0xD800 ≤ p0.val % 8 * 262144 + b1.val % 64 * 4096 + b2.val % 64 * 64 + b3.val % 64 ∧
       p0.val % 8 * 262144 + b1.val % 64 * 4096 + b2.val % 64 * 64 + b3.val % 64 ≤ 0xDFFF)) := by
    omega
  have e4 : ¬ (p0.val % 8 * 262144 + b1.val % 64 * 4096 + b2.val % 64 * 64 + b3.val % 64 ≤ 0xFFFF) := by
    omega
  simp only [EncodeRune, if_neg e1, if_neg e2, if_neg e3, if_neg e4]
  rw [byteOf_eq _ p0 (by omega), byteOf_eq _ b1 (by omega), byteOf_eq _ b2 (by omega),
    byteOf_eq _ b3 (by omega)]

/-- A well-formed multi-byte encoding at the front of a string: its rune `r`, its
continuation bytes `cs`, and what follows. Decoding does not depend on what
follows, and encoding the rune gives the bytes back. -/
theorem decodeRune_multibyte (b : Byte) (t : GoString) (hb : 0x80 ≤ b.val)
    (h : DecodeRune (b :: t) ≠ (RuneError, 1)) :
    ∃ r cs y, t = cs ++ y ∧ (∀ z, DecodeRune (b :: (cs ++ z)) = (r, cs.length + 1)) ∧
      EncodeRune r = b :: cs ∧ (∀ c ∈ cs, 0x80 ≤ c.val) ∧ 0x80 ≤ r := by
  rcases decodeRune_cases b t hb h with ⟨b1, y, rfl, h0, h1⟩ | ⟨b1, b2, y, rfl, h0, h1, h2⟩ |
    ⟨b1, b2, b3, y, rfl, h0, h1, h2, h3⟩
  · refine ⟨_, [b1], y, rfl, fun z => decodeRune_two b b1 z h0 h1, encodeRune_two b b1 h0 h1, ?_, ?_⟩
    · intro c hc
      simp only [List.mem_singleton] at hc
      subst hc
      exact h1.1.1
    · unfold lead2 at h0
      omega
  · refine ⟨_, [b1, b2], y, rfl, fun z => decodeRune_three b b1 b2 z h0 h1 h2,
      encodeRune_three b b1 b2 h0 h1 h2, ?_, ?_⟩
    · intro c hc
      simp only [List.mem_cons, List.mem_singleton, List.not_mem_nil, or_false] at hc
      rcases hc with rfl | rfl
      · exact h1.1.1
      · exact h2.1
    · unfold lead3 at h0
      unfold second cont at h1
      omega
  · refine ⟨_, [b1, b2, b3], y, rfl, fun z => decodeRune_four b b1 b2 b3 z h0 h1 h2 h3,
      encodeRune_four b b1 b2 b3 h0 h1 h2 h3, ?_, ?_⟩
    · intro c hc
      simp only [List.mem_cons, List.mem_singleton, List.not_mem_nil, or_false] at hc
      rcases hc with rfl | rfl | rfl
      · exact h1.1.1
      · exact h2.1
      · exact h3.1
    · unfold lead4 at h0
      unfold second cont at h1
      omega

/-! ### The scanner on encoder output -/

theorem hexVal_hexDigit (n : Nat) (h : n < 16) : hexVal (hexDigit n) = some n := by
  have key : ∀ m : Fin 16, hexVal (hexDigit m.val) = some m.val := by decide
  exact key ⟨n, h⟩

theorem scanString_plain (c : Byte) (X : GoString) (h1 : c.val ≠ 0x22) (h2 : c.val ≠ 0x5C)
    (h3 : ¬ c.val < 0x20) :
    scanString (c :: X) = (scanString X).map (fun r => (c :: r.1, r.2)) := by
  simp only [scanString, scanStringFrom, if_neg h1, if_neg h2, if_neg h3]

theorem scanString_high (p : GoString) (hp : ∀ c ∈ p, 0x80 ≤ c.val) (X : GoString) :
    scanString (p ++ X) = (scanString X).map (fun r => (p ++ r.1, r.2)) := by
  induction p with
  | nil => simp
  | cons c p ih =>
    have hc := hp c (List.mem_cons_self c p)
    rw [List.cons_append, scanString_plain c _ (by omega) (by omega) (by omega),
      ih (fun d hd => hp d (List.mem_cons_of_mem c hd))]
    cases scanString X <;> rfl

theorem scanString_simple (e : Byte) (X : GoString)
    (he : e.val = 0x62 ∨ e.val = 0x66 ∨ e.val = 0x6E ∨ e.val = 0x72 ∨ e.val = 0x74 ∨
            e.val = 0x5C ∨ e.val = 0x2F ∨ e.val = 0x22) :
    scanString (0x5C :: e :: X) = (scanString X).map (fun r => (0x5C :: e :: r.1, r.2)) := by
  have e1 : ¬ ((0x5C : Byte).val = 0x22) := by decide
  have e2 : (0x5C : Byte).val = 0x5C := by decide
  simp only [scanString, scanStringFrom, if_neg e1, if_pos e2, if_pos he]
  cases scanStringFrom StringState.inString X <;> rfl

theorem scanString_u (h1 h2 h3 h4 : Byte) (X : GoString)
    (k1 : (hexVal h1).isSome) (k2 : (hexVal h2).isSome) (k3 : (hexVal h3).isSome)
    (k4 : (hexVal h4).isSome) :
    scanString (0x5C :: 0x75 :: h1 :: h2 :: h3 :: h4 :: X) =
      (scanString X).map (fun r => (0x5C :: 0x75 :: h1 :: h2 :: h3 :: h4 :: r.1, r.2)) := by
  have e1 : ¬ ((0x5C : Byte).val = 0x22) := by decide
  have e2 : (0x5C : Byte).val = 0x5C := by decide
  have e3 : ¬ ((0x75 : Byte).val = 0x62 ∨ (0x75 : Byte).val = 0x66 ∨ (0x75 : Byte).val = 0x6E ∨
      (0x75 : Byte).val = 0x72 ∨ (0x75 : Byte).val = 0x74 ∨ (0x75 : Byte).val = 0x5C ∨
      (0x75 : Byte).val = 0x2F ∨ (0x75 : Byte).val = 0x22) := by decide
  have e4 : (0x75 : Byte).val = 0x75 := by decide
  simp only [scanString, scanStringFrom, if_neg e1, if_pos e2, if_neg e3, if_pos e4, if_pos k1,
    if_pos k2, if_pos k3, if_pos k4]
  cases scanStringFrom StringState.inString X <;> rfl

theorem scanString_escapeByte (b : Byte) (hb : b.val < 0x80) (X : GoString) :
    scanString (escapeByte b ++ X) = (scanString X).map (fun r => (escapeByte b ++ r.1, r.2)) := by
  unfold escapeByte
  split_ifs with c1 c2 c3 c4
  · have : b = 0x5C ∨ b = 0x22 := by
      rcases c1 with c | c
      · exact Or.inl (Fin.ext c)
      · exact Or.inr (Fin.ext c)
    rcases this with rfl | rfl
    · exact scanString_simple _ X (by decide)
    · exact scanString_simple _ X (by decide)
  · exact scanString_simple _ X (by decide)
  · exact scanString_simple _ X (by decide)
  · exact scanString_simple _ X (by decide)
  · exact scanString_u _ _ _ _ X (by decide) (by decide)
      (by rw [hexVal_hexDigit _ (by omega)]; rfl) (by rw [hexVal_hexDigit _ (by omega)]; rfl)

theorem htmlSafe_spec (b : Byte) (h : htmlSafe b = true) :
    0x20 ≤ b.val ∧ b.val < 0x80 ∧ b.val ≠ 0x22 ∧ b.val ≠ 0x5C := by
  simp only [htmlSafe, Bool.and_eq_true, decide_eq_true_eq] at h
  omega

/-- The scanner reads the string literal that the encoder has written. -/
theorem scanString_stringLoop (f : Nat) : ∀ (s Y : GoString) (r : GoString × GoString),
    scanString Y = some r → scanString (stringLoop f s ++ Y) = some (stringLoop f s ++ r.1, r.2) := by
  induction f with
  | zero =>
    intro s Y r h
    simpa [stringLoop] using h
  | succ f ih =>
    intro s Y r h
    rcases s with _ | ⟨b, t⟩
    · simpa [stringLoop] using h
    · by_cases h1 : b.val < 0x80
      · by_cases h2 : htmlSafe b = true
        · have hs := htmlSafe_spec b h2
          simp only [stringLoop, if_pos h1, if_pos h2, List.append_assoc, List.singleton_append,
            List.cons_append, List.nil_append]
          rw [scanString_plain b _ hs.2.2.1 hs.2.2.2 (by omega), ih t Y r h]
          rfl
        · simp only [stringLoop, if_pos h1, if_neg h2, List.append_assoc]
          rw [scanString_escapeByte b h1, ih t Y r h]
          simp
      · by_cases h3 : DecodeRune (b :: t) = (RuneError, 1)
        · simp only [stringLoop, if_neg h1, if_pos h3, List.append_assoc]
          rw [List.cons_append, List.cons_append, List.cons_append, List.cons_append,
            List.cons_append, List.cons_append, List.nil_append,
            scanString_u _ _ _ _ _ (by decide) (by decide) (by decide) (by decide), ih t Y r h]
          rfl
        · obtain ⟨rn, cs, y, rfl, hdec, henc, hcs, hr⟩ :=
            decodeRune_multibyte b t (by omega) h3
          have hd := hdec y
          have htake : List.take (cs.length + 1) (b :: (cs ++ y)) = b :: cs := by
            simp
          have hdrop : List.drop (cs.length + 1) (b :: (cs ++ y)) = y := by
            simp
          by_cases h4 : rn = 0x2028 ∨ rn = 0x2029
          · simp only [stringLoop, if_neg h1, if_neg h3]
            simp only [hd, if_pos h4, hdrop, List.append_assoc]
            rw [List.cons_append, List.cons_append, List.cons_append, List.cons_append,
              List.cons_append, List.cons_append, List.nil_append,
              scanString_u _ _ _ _ _ (by decide) (by decide) (by decide)
                (by rw [hexVal_hexDigit _ (by omega)]; rfl), ih _ Y r h]
            rfl
          · have hmem : ∀ c ∈ b :: cs, 0x80 ≤ c.val := by
              intro c hc
              rcases List.mem_cons.1 hc with rfl | hc
              · omega
              · exact hcs c hc
            simp only [stringLoop, if_neg h1, if_neg h3]
            simp only [hd, if_neg h4, htake, hdrop, List.append_assoc]
            rw [scanString_high (b :: cs) hmem, ih y Y r h]
            simp

/-! ### Unquoting encoder output -/

theorem getu4_eq (h1 h2 h3 h4 : Byte) (X : GoString) (a b c d : Nat)
    (k1 : hexVal h1 = some a) (k2 : hexVal h2 = some b) (k3 : hexVal h3 = some c)
    (k4 : hexVal h4 = some d) :
    getu4 (0x5C :: 0x75 :: h1 :: h2 :: h3 :: h4 :: X) = some (((a * 16 + b) * 16 + c) * 16 + d) := by
  have e : (0x5C : Byte).val = 0x5C ∧ (0x75 : Byte).val = 0x75 := by decide
  simp only [getu4, if_pos e, k1, k2, k3, k4]

theorem unquoteEscape_u (h1 h2 h3 h4 : Byte) (X : GoString) (rr : Nat)
    (k : getu4 (0x5C :: 0x75 :: h1 :: h2 :: h3 :: h4 :: X) = some rr)
    (hs : ¬ (0xD800 ≤ rr ∧ rr < 0xE000)) :
    unquoteEscape (0x5C :: 0x75 :: h1 :: h2 :: h3 :: h4 :: X) = some (EncodeRune rr, X) := by
  have e1 : ¬ ((0x75 : Byte).val = 0x22 ∨ (0x75 : Byte).val = 0x5C ∨ (0x75 : Byte).val = 0x2F ∨
      (0x75 : Byte).val = 0x27) := by decide
  have e2 : ¬ ((0x75 : Byte).val = 0x62) := by decide
  have e3 : ¬ ((0x75 : Byte).val = 0x66) := by decide
  have e4 : ¬ ((0x75 : Byte).val = 0x6E) := by decide
  have e5 : ¬ ((0x75 : Byte).val = 0x72) := by decide
  have e6 : ¬ ((0x75 : Byte).val = 0x74) := by decide
  have e7 : (0x75 : Byte).val = 0x75 := by decide
  simp only [unquoteEscape, List.drop_succ_cons, List.drop_zero, if_neg e1, if_neg e2, if_neg e3,
    if_neg e4, if_neg e5, if_neg e6, if_pos e7, k, if_neg hs]

theorem unquoteLoop_escape (g : Nat) (X w rest : GoString)
    (k : unquoteEscape (0x5C :: X) = some (w, rest)) :
    unquoteLoop (g + 1) (0x5C :: X) = (unquoteLoop g rest).map (fun r => w ++ r) := by
  have e : (0x5C : Byte).val = 0x5C := by decide
  simp only [unquoteLoop, if_pos e, k]

theorem unquoteLoop_plain (g : Nat) (c : Byte) (X : GoString) (h0 : c.val < 0x80)
    (h1 : c.val ≠ 0x22) (h2 : c.val ≠ 0x5C) (h3 : ¬ c.val < 0x20) :
    unquoteLoop (g + 1) (c :: X) = (unquoteLoop g X).map (fun r => c :: r) := by
  have e : ¬ (c.val = 0x22 ∨ c.val < 0x20) := by omega
  simp only [unquoteLoop, if_neg h2, if_neg e, if_pos h0]

theorem unquoteLoop_rune (g : Nat) (b : Byte) (cs X : GoString) (rn : Nat) (hb : 0x80 ≤ b.val)
    (hd : DecodeRune (b :: (cs ++ X)) = (rn, cs.length + 1)) (he : EncodeRune rn = b :: cs) :
    unquoteLoop (g + 1) (b :: (cs ++ X)) = (unquoteLoop g X).map (fun r => (b :: cs) ++ r) := by
  have e1 : ¬ b.val = 0x5C := by omega
  have e2 : ¬ (b.val = 0x22 ∨ b.val < 0x20) := by omega
  have e3 : ¬ b.val < 0x80 := by omega
  have hdrop : List.drop (cs.length + 1) (b :: (cs ++ X)) = X := by simp
  simp only [unquoteLoop, if_neg e1, if_neg e2, if_neg e3, hd, he, hdrop]

theorem unquoteEscape_simple (e : Byte) (X : GoString)
    (he : e.val = 0x22 ∨ e.val = 0x5C ∨ e.val = 0x2F ∨ e.val = 0x27) :
    unquoteEscape (0x5C :: e :: X) = some ([e], X) := by
  simp only [unquoteEscape, List.drop_succ_cons, List.drop_zero, if_pos he]

/-- An escaped ASCII byte is read back as the byte. -/
theorem unquoteEscape_escapeByte (b : Byte) (hb : b.val < 0x80) (hs : htmlSafe b = false)
    (X : GoString) : ∃ Y, escapeByte b ++ X = 0x5C :: Y ∧ unquoteEscape (0x5C :: Y) = some ([b], X) := by
  unfold escapeByte
  split_ifs with c1 c2 c3 c4
  · exact ⟨b :: X, rfl, unquoteEscape_simple b X (by omega)⟩
  · have : b = 0x0A := Fin.ext c2
    subst this
    exact ⟨0x6E :: X, rfl, rfl⟩
  · have : b = 0x0D := Fin.ext c3
    subst this
    exact ⟨0x72 :: X, rfl, rfl⟩
  · have : b = 0x09 := Fin.ext c4
    subst this
    exact ⟨0x74 :: X, rfl, rfl⟩
  · refine ⟨0x75 :: 0x30 :: 0x30 :: hexDigit (b.val / 16) :: hexDigit (b.val % 16) :: X, rfl, ?_⟩
    have k := getu4_eq 0x30 0x30 (hexDigit (b.val / 16)) (hexDigit (b.val % 16)) X 0 0
      (b.val / 16) (b.val % 16) (by decide) (by decide) (hexVal_hexDigit _ (by omega))
      (hexVal_hexDigit _ (by omega))
    have hv : ((0 * 16 + 0) * 16 + b.val / 16) * 16 + b.val % 16 = b.val := by omega
    rw [hv] at k
    rw [unquoteEscape_u _ _ _ _ X b.val k (by omega)]
    have e : b.val ≤ 0x7F := by omega
    simp only [EncodeRune, if_pos e, byteOf_val]

/-- Reading back what the encoder wrote for an ASCII byte outside `htmlSafeSet`. -/
theorem unquoteLoop_escapeByte (g : Nat) (b : Byte) (hb : b.val < 0x80) (hs : htmlSafe b = false)
    (X : GoString) :
    unquoteLoop (g + 1) (escapeByte b ++ X) = (unquoteLoop g X).map (fun r => b :: r) := by
  obtain ⟨Y, hY, hu⟩ := unquoteEscape_escapeByte b hb hs X
  rw [hY, unquoteLoop_escape g Y [b] X hu]
  rfl

theorem length_escapeByte_pos (b : Byte) : 1 ≤ (escapeByte b).length := by
  unfold escapeByte
  split_ifs <;> simp

/-- The unquoting loop reads the encoder's output back as the coerced string. -/
theorem unquoteLoop_stringLoop (f : Nat) : ∀ (s : GoString) (g : Nat),
    (stringLoop f s).length ≤ g → unquoteLoop g (stringLoop f s) = some (coerceLoop f s) := by
  induction f with
  | zero =>
    intro s g _
    cases g <;> simp [stringLoop, coerceLoop, unquoteLoop]
  | succ f ih =>
    intro s g hg
    rcases s with _ | ⟨b, t⟩
    · cases g <;> simp [stringLoop, coerceLoop, unquoteLoop]
    · by_cases h1 : b.val < 0x80
      · have hne : ¬ ((b.val, 1) = (RuneError, 1)) := by
          intro hc
          have := congrArg Prod.fst hc
          simp only [RuneError] at this
          omega
        have hco : coerceLoop (f + 1) (b :: t) = b :: coerceLoop f t := by
          simp only [coerceLoop, decodeRune_ascii b t h1, if_neg hne, List.take_succ_cons,
            List.take_zero, List.drop_succ_cons, List.drop_zero, List.singleton_append]
        by_cases h2 : htmlSafe b = true
        · have hs := htmlSafe_spec b h2
          have hx : stringLoop (f + 1) (b :: t) = b :: stringLoop f t := by
            simp only [stringLoop, if_pos h1, if_pos h2, List.singleton_append]
          rw [hx] at hg ⊢
          obtain ⟨g, rfl⟩ : ∃ g', g = g' + 1 := ⟨g - 1, by simp at hg; omega⟩
          rw [unquoteLoop_plain g b _ h1 hs.2.2.1 hs.2.2.2 (by omega),
            ih t g (by simp at hg; omega), hco]
          rfl
        · have hx : stringLoop (f + 1) (b :: t) = escapeByte b ++ stringLoop f t := by
            simp only [stringLoop, if_pos h1, if_neg h2]
          rw [hx] at hg ⊢
          have hl := length_escapeByte_pos b
          obtain ⟨g, rfl⟩ : ∃ g', g = g' + 1 := ⟨g - 1, by simp at hg; omega⟩
          rw [unquoteLoop_escapeByte g b h1 (by simpa using h2),
            ih t g (by simp at hg; omega), hco]
          rfl
      · by_cases h3 : DecodeRune (b :: t) = (RuneError, 1)
        · have hx : stringLoop (f + 1) (b :: t) =
              0x5C :: 0x75 :: 0x66 :: 0x66 :: 0x66 :: 0x64 :: stringLoop f t := by
            simp only [stringLoop, if_neg h1, if_pos h3]
            rfl
          have hco : coerceLoop (f + 1) (b :: t) = [0xEF, 0xBF, 0xBD] ++ coerceLoop f t := by
            simp only [coerceLoop, if_pos h3]
          rw [hx] at hg ⊢
          obtain ⟨g, rfl⟩ : ∃ g', g = g' + 1 := ⟨g - 1, by simp at hg; omega⟩
          have k := getu4_eq 0x66 0x66 0x66 0x64 (stringLoop f t) 15 15 15 13 (by decide) (by decide)
            (by decide) (by decide)
          rw [unquoteLoop_escape g _ _ _ (unquoteEscape_u _ _ _ _ _ _ k (by omega)),
            ih t g (by simp at hg; omega), hco]
          rfl
        · obtain ⟨rn, cs, y, rfl, hdec, henc, hcs, hr⟩ :=
            decodeRune_multibyte b t (by omega) h3
          have hd := hdec y
          have htake : List.take (cs.length + 1) (b :: (cs ++ y)) = b :: cs := by
            simp
          have hdrop : List.drop (cs.length + 1) (b :: (cs ++ y)) = y := by
            simp
          have hco : coerceLoop (f + 1) (b :: (cs ++ y)) = (b :: cs) ++ coerceLoop f y := by
            simp only [coerceLoop, if_neg h3]
            simp only [hd, htake, hdrop]
          by_cases h4 : rn = 0x2028 ∨ rn = 0x2029
          · have hx : stringLoop (f + 1) (b :: (cs ++ y)) =
                0x5C :: 0x75 :: 0x32 :: 0x30 :: 0x32 :: hexDigit (rn % 16) :: stringLoop f y := by
              simp only [stringLoop, if_neg h1, if_neg h3]
              simp only [hd, if_pos h4, hdrop]
              rfl
            rw [hx] at hg ⊢
            obtain ⟨g, rfl⟩ : ∃ g', g = g' + 1 := ⟨g - 1, by simp at hg; omega⟩
            have k := getu4_eq 0x32 0x30 0x32 (hexDigit (rn % 16)) (stringLoop f y) 2 0 2 (rn % 16)
              (by decide) (by decide) (by decide) (hexVal_hexDigit _ (by omega))
            have hv : ((2 * 16 + 0) * 16 + 2) * 16 + rn % 16 = rn := by omega
            rw [hv] at k
            rw [unquoteLoop_escape g _ _ _ (unquoteEscape_u _ _ _ _ _ _ k (by omega)),
              ih y g (by simp at hg; omega), hco, henc]
            rfl
          · have hx : stringLoop (f + 1) (b :: (cs ++ y)) = b :: (cs ++ stringLoop f y) := by
              simp only [stringLoop, if_neg h1, if_neg h3]
              simp only [hd, if_neg h4, htake, hdrop, List.cons_append]
            have hd2 := hdec (stringLoop f y)
            rw [hx] at hg ⊢
            obtain ⟨g, rfl⟩ : ∃ g', g = g' + 1 := ⟨g - 1, by simp at hg; omega⟩
            rw [unquoteLoop_rune g b cs _ rn (by omega) hd2 henc,
              ih y g (by simp at hg; omega), hco]
            rfl

theorem plainLen_escape (h : Nat) (Y : GoString) : plainLen h (0x5C :: Y) = 0 := by
  cases h with
  | zero => rfl
  | succ h =>
    have e : (0x5C : Byte).val = 0x5C ∨ (0x5C : Byte).val = 0x22 ∨ (0x5C : Byte).val < 0x20 := by
      decide
    simp only [plainLen, if_pos e]

theorem plainLen_plain (h : Nat) (c : Byte) (X : GoString) (h0 : c.val < 0x80)
    (h1 : c.val ≠ 0x22) (h2 : c.val ≠ 0x5C) (h3 : ¬ c.val < 0x20) :
    plainLen (h + 1) (c :: X) = 1 + plainLen h X := by
  have e : ¬ (c.val = 0x5C ∨ c.val = 0x22 ∨ c.val < 0x20) := by omega
  simp only [plainLen, if_neg e, if_pos h0]

theorem plainLen_rune (h : Nat) (b : Byte) (cs X : GoString) (rn : Nat) (hb : 0x80 ≤ b.val)
    (hd : DecodeRune (b :: (cs ++ X)) = (rn, cs.length + 1))
    (hne : ¬ ((rn, cs.length + 1) = (RuneError, 1))) :
    plainLen (h + 1) (b :: (cs ++ X)) = (cs.length + 1) + plainLen h X := by
  have e : ¬ (b.val = 0x5C ∨ b.val = 0x22 ∨ b.val < 0x20) := by omega
  have e3 : ¬ b.val < 0x80 := by omega
  have hdrop : List.drop (cs.length + 1) (b :: (cs ++ X)) = X := by simp
  simp only [plainLen, if_neg e, if_neg e3, hd, if_neg hne, hdrop]

theorem chunk_drop (p X : GoString) (k : Nat) :
    List.drop (p.length + k) (p ++ X) = List.drop k X := by
  induction p with
  | nil => simp
  | cons c p ih =>
    rw [List.length_cons, Nat.add_right_comm, List.cons_append, List.drop_succ_cons]
    exact ih

theorem chunk_take (p X : GoString) (k : Nat) :
    List.take (p.length + k) (p ++ X) = p ++ List.take k X := by
  induction p with
  | nil => simp
  | cons c p ih =>
    rw [List.length_cons, Nat.add_right_comm, List.cons_append, List.take_succ_cons, ih]
    rfl

theorem unquote_zero (x : GoString) (g : Nat) :
    (unquoteLoop g (x.drop 0)).map (fun r => x.take 0 ++ r) = unquoteLoop g x := by
  simp

/-- Both loops of `unquoteBytes` together read the encoder's output back as the
coerced string. -/
theorem unquote_stringLoop_aux (f : Nat) : ∀ (s : GoString) (g h : Nat),
    (stringLoop f s).length ≤ g →
    (unquoteLoop g ((stringLoop f s).drop (plainLen h (stringLoop f s)))).map
      (fun r => (stringLoop f s).take (plainLen h (stringLoop f s)) ++ r) =
      some (coerceLoop f s) := by
  induction f with
  | zero =>
    intro s g h _
    cases g <;> cases h <;> simp [stringLoop, coerceLoop, unquoteLoop, plainLen]
  | succ f ih =>
    intro s g h hg
    rcases s with _ | ⟨b, t⟩
    · cases g <;> cases h <;> simp [stringLoop, coerceLoop, unquoteLoop, plainLen]
    rcases h with _ | h
    · have : plainLen 0 (stringLoop (f + 1) (b :: t)) = 0 := rfl
      rw [this, unquote_zero]
      exact unquoteLoop_stringLoop (f + 1) (b :: t) g hg
    by_cases h1 : b.val < 0x80
    · by_cases h2 : htmlSafe b = true
      · have hs := htmlSafe_spec b h2
        have hne : ¬ ((b.val, 1) = (RuneError, 1)) := by
          intro hc
          have := congrArg Prod.fst hc
          simp only [RuneError] at this
          omega
        have hco : coerceLoop (f + 1) (b :: t) = b :: coerceLoop f t := by
          simp only [coerceLoop, decodeRune_ascii b t h1, if_neg hne, List.take_succ_cons,
            List.take_zero, List.drop_succ_cons, List.drop_zero, List.singleton_append]
        have hx : stringLoop (f + 1) (b :: t) = b :: stringLoop f t := by
          simp only [stringLoop, if_pos h1, if_pos h2, List.singleton_append]
        rw [hx] at hg ⊢
        have hi := ih t g h (by simp at hg; omega)
        rw [plainLen_plain h b _ h1 hs.2.2.1 hs.2.2.2 (by omega), hco, Nat.add_comm 1,
          List.drop_succ_cons, List.take_succ_cons]
        cases hq : unquoteLoop g ((stringLoop f t).drop (plainLen h (stringLoop f t))) with
        | none => rw [hq] at hi; simp at hi
        | some q =>
          rw [hq] at hi
          simp only [Option.map_some', Option.some.injEq] at hi ⊢
          rw [List.cons_append, hi]
      · obtain ⟨Y, hY, _⟩ := unquoteEscape_escapeByte b h1 (by simpa using h2) (stringLoop f t)
        have hx : stringLoop (f + 1) (b :: t) = 0x5C :: Y := by
          simp only [stringLoop, if_pos h1, if_neg h2]
          exact hY
        have hu := unquoteLoop_stringLoop (f + 1) (b :: t) g hg
        rw [hx] at hu ⊢
        rw [plainLen_escape, unquote_zero]
        exact hu
    · by_cases h3 : DecodeRune (b :: t) = (RuneError, 1)
      · have hx : stringLoop (f + 1) (b :: t) =
            0x5C :: 0x75 :: 0x66 :: 0x66 :: 0x66 :: 0x64 :: stringLoop f t := by
          simp only [stringLoop, if_neg h1, if_pos h3]
          rfl
        have hu := unquoteLoop_stringLoop (f + 1) (b :: t) g hg
        rw [hx] at hu ⊢
        rw [plainLen_escape, unquote_zero]
        exact hu
      · obtain ⟨rn, cs, y, rfl, hdec, henc, hcs, hr⟩ :=
          decodeRune_multibyte b t (by omega) h3
        have hd := hdec y
        have htake : List.take (cs.length + 1) (b :: (cs ++ y)) = b :: cs := by
          simp
        have hdrop : List.drop (cs.length + 1) (b :: (cs ++ y)) = y := by
          simp
        by_cases h4 : rn = 0x2028 ∨ rn = 0x2029
        · have hx : stringLoop (f + 1) (b :: (cs ++ y)) =
              0x5C :: 0x75 :: 0x32 :: 0x30 :: 0x32 :: hexDigit (rn % 16) :: stringLoop f y := by
            simp only [stringLoop, if_neg h1, if_neg h3]
            simp only [hd, if_pos h4, hdrop]
            rfl
          have hu := unquoteLoop_stringLoop (f + 1) (b :: (cs ++ y)) g hg
          rw [hx] at hu ⊢
          rw [plainLen_escape, unquote_zero]
          exact hu
        · have hco : coerceLoop (f + 1) (b :: (cs ++ y)) = (b :: cs) ++ coerceLoop f y := by
            simp only [coerceLoop, if_neg h3]
            simp only [hd, htake, hdrop]
          have hx : stringLoop (f + 1) (b :: (cs ++ y)) = b :: (cs ++ stringLoop f y) := by
            simp only [stringLoop, if_neg h1, if_neg h3]
            simp only [hd, if_neg h4, htake, hdrop, List.cons_append]
          have hne : ¬ ((rn, cs.length + 1) = (RuneError, 1)) := by
            rw [← hd]
            exact h3
          rw [hx] at hg ⊢
          have hi := ih y g h (by simp at hg; omega)
          rw [plainLen_rune h b cs _ rn (by omega) (hdec _) hne, hco]
          have e1 : List.drop (cs.length + 1 + plainLen h (stringLoop f y))
              (b :: (cs ++ stringLoop f y)) =
              List.drop (plainLen h (stringLoop f y)) (stringLoop f y) :=
            chunk_drop (b :: cs) _ _
          have e2 : List.take (cs.length + 1 + plainLen h (stringLoop f y))
              (b :: (cs ++ stringLoop f y)) =
              (b :: cs) ++ List.take (plainLen h (stringLoop f y)) (stringLoop f y) :=
            chunk_take (b :: cs) _ _
          rw [e1, e2]
          cases hq : unquoteLoop g ((stringLoop f y).drop (plainLen h (stringLoop f y))) with
          | none => rw [hq] at hi; simp at hi
          | some q =>
            rw [hq] at hi
            simp only [Option.map_some', Option.some.injEq] at hi ⊢
            rw [List.append_assoc, hi]

/-- The function `unquoteBytes` reads the encoder's output back as the coerced string. -/
theorem unquote_stringLoop (f : Nat) (s : GoString) :
    unquote (stringLoop f s) = some (coerceLoop f s) :=
  unquote_stringLoop_aux f s _ _ (Nat.le_refl _)

/-! ### The object written by `Marshal` -/

theorem skipSpace_cons (c : Byte) (X : GoString) (h : isSpace c = false) :
    skipSpace (c :: X) = c :: X := by
  simp [skipSpace, h]

/-- The scanner reads a string literal written by the encoder, closing quote included. -/
theorem scanString_encoded (s rest : GoString) :
    scanString (stringLoop s.length s ++ 0x22 :: rest) = some (stringLoop s.length s, rest) := by
  have h0 : scanString (0x22 :: rest) = some ([], rest) := by
    have e : (0x22 : Byte).val = 0x22 := by decide
    simp only [scanString, scanStringFrom, if_pos e]
  have := scanString_stringLoop s.length s (0x22 :: rest) ([], rest) h0
  simpa using this

theorem scanValue_string (k : Nat) (X : GoString) :
    scanValue (k + 1) (0x22 :: X) = (scanString X).map (fun r => (JValue.string r.1, r.2)) := by
  have e1 : ¬ ((0x22 : Byte).val = 0x7B) := by decide
  have e2 : ¬ ((0x22 : Byte).val = 0x5B) := by decide
  have e3 : (0x22 : Byte).val = 0x22 := by decide
  simp only [scanValue, if_neg e1, if_neg e2, if_pos e3]

/-- One member `"name":"value",` followed by another member. -/
theorem scanMembers_more (k : Nat) (N s more : GoString)
    (hN : ∀ Z, scanString (N ++ 0x22 :: Z) = some (N, Z)) :
    scanMembers (k + 2)
        (0x22 :: (N ++ 0x22 :: 0x3A :: 0x22 :: (stringLoop s.length s ++ 0x22 :: 0x2C :: 0x22 :: more))) =
      (scanMembers (k + 1) (0x22 :: more)).map
        (fun r => ((N, JValue.string (stringLoop s.length s)) :: r.1, r.2)) := by
  have e1 : (0x22 : Byte).val = 0x22 := by decide
  have e2 : (0x3A : Byte).val = 0x3A := by decide
  have e3 : (0x2C : Byte).val = 0x2C := by decide
  rw [scanMembers]
  simp only [if_pos e1, hN, skipSpace_cons 0x3A _ (by decide), if_pos e2,
    skipSpace_cons 0x22 _ (by decide), scanValue_string, scanString_encoded, Option.map_some',
    skipSpace_cons 0x2C _ (by decide), if_pos e3]

/-- The last member `"name":"value"` and the closing brace. -/
theorem scanMembers_last (k : Nat) (N s rest : GoString)
    (hN : ∀ Z, scanString (N ++ 0x22 :: Z) = some (N, Z)) :
    scanMembers (k + 2)
        (0x22 :: (N ++ 0x22 :: 0x3A :: 0x22 :: (stringLoop s.length s ++ 0x22 :: 0x7D :: rest))) =
      some ([(N, JValue.string (stringLoop s.length s))], rest) := by
  have e1 : (0x22 : Byte).val = 0x22 := by decide
  have e2 : (0x3A : Byte).val = 0x3A := by decide
  have e3 : ¬ ((0x7D : Byte).val = 0x2C) := by decide
  have e4 : (0x7D : Byte).val = 0x7D := by decide
  rw [scanMembers]
  simp only [if_pos e1, hN, skipSpace_cons 0x3A _ (by decide), if_pos e2,
    skipSpace_cons 0x22 _ (by decide), scanValue_string, scanString_encoded, Option.map_some',
    skipSpace_cons 0x7D _ (by decide), if_neg e3, if_pos e4]

theorem scanString_name_ProviderID (Z : GoString) :
    scanString (ascii "ProviderID" ++ 0x22 :: Z) = some (ascii "ProviderID", Z) := rfl
theorem scanString_name_PatientID (Z : GoString) :
    scanString (ascii "PatientID" ++ 0x22 :: Z) = some (ascii "PatientID", Z) := rfl
theorem scanString_name_Category (Z : GoString) :
    scanString (ascii "Category" ++ 0x22 :: Z) = some (ascii "Category", Z) := rfl
theorem scanString_name_Status (Z : GoString) :
    scanString (ascii "Status" ++ 0x22 :: Z) = some (ascii "Status", Z) := rfl

/-- The bytes of `Marshal r`, member by member. -/
theorem Marshal_eq (r : Request) :
    Marshal r = 0x7B :: 0x22 :: (ascii "ProviderID" ++ 0x22 :: 0x3A :: 0x22 ::
      (stringLoop r.ProviderID.length r.ProviderID ++ 0x22 :: 0x2C :: 0x22 ::
      (ascii "PatientID" ++ 0x22 :: 0x3A :: 0x22 ::
      (stringLoop r.PatientID.length r.PatientID ++ 0x22 :: 0x2C :: 0x22 ::
      (ascii "Category" ++ 0x22 :: 0x3A :: 0x22 ::
      (stringLoop r.Category.length r.Category ++ 0x22 :: 0x2C :: 0x22 ::
      (ascii "Status" ++ 0x22 :: 0x3A :: 0x22 ::
      (stringLoop r.Status.length r.Status ++ 0x22 :: 0x7D :: [])))))))) := by
  have a1 : ascii "\x7b\"ProviderID\":" = 0x7B :: 0x22 :: (ascii "ProviderID" ++ [0x22, 0x3A]) := by
    decide
  have a2 : ascii ",\"PatientID\":" = 0x2C :: 0x22 :: (ascii "PatientID" ++ [0x22, 0x3A]) := by
    decide
  have a3 : ascii ",\"Category\":" = 0x2C :: 0x22 :: (ascii "Category" ++ [0x22, 0x3A]) := by
    decide
  have a4 : ascii ",\"Status\":" = 0x2C :: 0x22 :: (ascii "Status" ++ [0x22, 0x3A]) := by
    decide
  have a5 : ascii "\x7d" = [0x7D] := by decide
  simp only [Marshal, encodeString, a1, a2, a3, a4, a5, List.append_assoc, List.cons_append,
    List.nil_append]

/-- The scanner reads `Marshal r` as the object with the four members. -/
theorem scanTop_Marshal (r : Request) :
    scanTop (Marshal r) = some (JValue.object
      [(ascii "ProviderID", JValue.string (stringLoop r.ProviderID.length r.ProviderID)),
       (ascii "PatientID", JValue.string (stringLoop r.PatientID.length r.PatientID)),
       (ascii "Category", JValue.string (stringLoop r.Category.length r.Category)),
       (ascii "Status", JValue.string (stringLoop r.Status.length r.Status))]) := by
  obtain ⟨k, hk⟩ : ∃ k, (Marshal r).length + 1 = k + 6 := by
    refine ⟨(Marshal r).length - 5, ?_⟩
    have : 5 ≤ (Marshal r).length := by
      rw [Marshal_eq]
      simp only [List.length_cons, List.length_append]
      omega
    omega
  unfold scanTop
  rw [hk, Marshal_eq, skipSpace_cons 0x7B _ (by decide)]
  have e1 : (0x7B : Byte).val = 0x7B := by decide
  have e2 : ¬ ((0x22 : Byte).val = 0x7D) := by decide
  rw [scanValue]
  simp only [if_pos e1, skipSpace_cons 0x22 _ (by decide), if_neg e2,
    scanMembers_more _ _ _ _ scanString_name_ProviderID,
    scanMembers_more _ _ _ _ scanString_name_PatientID,
    scanMembers_more _ _ _ _ scanString_name_Category,
    scanMembers_last _ _ _ _ scanString_name_Status, Option.map_some']
  rfl

/-! ### Round trip of the record encoding -/

theorem storeMember_field (r : Request) (N s : GoString) (i : Nat)
    (hN : unquote N = some N) (hf : findField N requestFields none = some i) :
    storeMember r (N, JValue.string (stringLoop s.length s)) = setField r i (coerceUTF8 s) := by
  simp only [storeMember, hN, hf, unquote_stringLoop, coerceUTF8]

/-- Decoding the encoding of a request gives the request with every field
coerced to well-formed UTF-8, whatever the target held before. -/
theorem Unmarshal_Marshal (r r0 : Request) :
    Unmarshal (Marshal r) r0 =
      ⟨coerceUTF8 r.ProviderID, coerceUTF8 r.PatientID, coerceUTF8 r.Category,
        coerceUTF8 r.Status⟩ := by
  unfold Unmarshal
  rw [scanTop_Marshal]
  simp only [List.foldl_cons, List.foldl_nil]
  rw [storeMember_field _ (ascii "ProviderID") _ 0 (by decide) (by decide),
    storeMember_field _ (ascii "PatientID") _ 1 (by decide) (by decide),
    storeMember_field _ (ascii "Category") _ 2 (by decide) (by decide),
    storeMember_field _ (ascii "Status") _ 3 (by decide) (by decide)]
  rfl

theorem coerceLoop_of_valid (f : Nat) : ∀ s : GoString, validLoop f s = true → coerceLoop f s = s := by
  induction f with
  | zero =>
    intro s h
    cases s with
    | nil => rfl
    | cons b t => simp [validLoop] at h
  | succ f ih =>
    intro s h
    rcases s with _ | ⟨b, t⟩
    · rfl
    · by_cases h3 : DecodeRune (b :: t) = (RuneError, 1)
      · simp [validLoop, h3] at h
      · simp only [validLoop, if_neg h3] at h
        simp only [coerceLoop, if_neg h3]
        rw [ih _ h]
        exact List.take_append_drop _ _

/-- Coercion does nothing to a well-formed UTF-8 string. -/
theorem coerceUTF8_of_valid (s : GoString) (h : ValidString s = true) : coerceUTF8 s = s :=
  coerceLoop_of_valid s.length s h

/-- Round trip of a request whose four fields are well-formed UTF-8. -/
theorem Unmarshal_Marshal_valid (r r0 : Request) (h1 : ValidString r.ProviderID = true)
    (h2 : ValidString r.PatientID = true) (h3 : ValidString r.Category = true)
    (h4 : ValidString r.Status = true) : Unmarshal (Marshal r) r0 = r := by
  rw [Unmarshal_Marshal, coerceUTF8_of_valid _ h1, coerceUTF8_of_valid _ h2,
    coerceUTF8_of_valid _ h3, coerceUTF8_of_valid _ h4]

/-! ### Ledger lemmas and `publishRequest` -/

theorem lookup_PutState_self (l : Ledger) (key value : GoString) :
    (PutState l key value).lookup key = some value := by
  simp [PutState, List.lookup]

theorem lookup_PutState_ne (l : Ledger) (key value k : GoString) (h : k ≠ key) :
    (PutState l key value).lookup k = l.lookup k := by
  have : (k == key) = false := by simpa using h
  simp [PutState, List.lookup, this]

theorem GetState_PutState_self (l : Ledger) (key value : GoString) :
    GetState (PutState l key value) key = value := by
  simp only [GetState, lookup_PutState_self]

theorem GetState_of_lookup (l : Ledger) (key value : GoString) (h : l.lookup key = some value) :
    GetState l key = value := by
  simp only [GetState, h]

theorem GetState_of_absent (l : Ledger) (key : GoString) (h : l.lookup key = none) :
    GetState l key = [] := by
  simp only [GetState, h]

theorem Unmarshal_nil (r : Request) : Unmarshal [] r = r := rfl

theorem valid_pending : ValidString (ascii "pending") = true := by decide
theorem valid_revoked : ValidString (ascii "revoked") = true := by decide

/-- Claim C1 (as amended). For every ledger and every four strings `key`,
`providerID`, `patientID`, `category`, `publishRequest` returns success with an
empty payload; in the resulting ledger `key` is bound to the encoding of
`Request{providerID, patientID, category, Status: "pending"}` and every other
key is bound as before; decoding the value read back at `key` gives the three
strings coerced to well-formed UTF-8 and `Status` `"pending"`, hence exactly the
four fields whenever the three strings are well-formed UTF-8. -/
theorem publishRequest_correct (l : Ledger) (key providerID patientID category : GoString) :
    (publishRequest l [key, providerID, patientID, category]).1 = Response.Success [] ∧
    (publishRequest l [key, providerID, patientID, category]).2.lookup key =
      some (Marshal ⟨providerID, patientID, category, ascii "pending"⟩) ∧
    (∀ k, k ≠ key →
      (publishRequest l [key, providerID, patientID, category]).2.lookup k = l.lookup k) ∧
    Unmarshal (GetState (publishRequest l [key, providerID, patientID, category]).2 key)
        Request.zero =
      ⟨coerceUTF8 providerID, coerceUTF8 patientID, coerceUTF8 category, ascii "pending"⟩ ∧
    (ValidString providerID = true → ValidString patientID = true →
      ValidString category = true →
      Unmarshal (GetState (publishRequest l [key, providerID, patientID, category]).2 key)
          Request.zero =
        ⟨providerID, patientID, category, ascii "pending"⟩) := by
  have hget : GetState (publishRequest l [key, providerID, patientID, category]).2 key =
      Marshal ⟨providerID, patientID, category, ascii "pending"⟩ :=
    GetState_PutState_self _ _ _
  refine ⟨rfl, lookup_PutState_self _ _ _, fun k hk => lookup_PutState_ne _ _ _ k hk, ?_, ?_⟩
  · rw [hget, Unmarshal_Marshal, coerceUTF8_of_valid _ valid_pending]
  · intro hp ha hc
    rw [hget]
    exact Unmarshal_Marshal_valid _ _ hp ha hc valid_pending

/-- Witness of claim C1: publishing under key `REQ42` in the empty ledger and
reading the record back. -/
theorem publishRequest_correct_witness :
    Unmarshal (GetState (publishRequest [] [ascii "REQ42", ascii "PR7", ascii "PA\"3\"",
        ascii "a\\b\n"]).2 (ascii "REQ42")) Request.zero =
      ⟨ascii "PR7", ascii "PA\"3\"", ascii "a\\b\n", ascii "pending"⟩ :=
  (publishRequest_correct [] (ascii "REQ42") (ascii "PR7") (ascii "PA\"3\"")
    (ascii "a\\b\n")).2.2.2.2 (by decide) (by decide) (by decide)

/-- Counterexample to claim C1 as stated: a provider, patient and category
identifier that are each the single byte `0xFF` are read back as U+FFFD (bytes
EF BF BD), not as the bytes supplied. -/
theorem publishRequest_counterexample :
    Unmarshal (GetState (publishRequest [] [ascii "REQ42", [0xFF], [0xFF], [0xFF]]).2
        (ascii "REQ42")) Request.zero =
      ⟨[0xEF, 0xBF, 0xBD], [0xEF, 0xBF, 0xBD], [0xEF, 0xBF, 0xBD], ascii "pending"⟩ ∧
    Unmarshal (GetState (publishRequest [] [ascii "REQ42", [0xFF], [0xFF], [0xFF]]).2
        (ascii "REQ42")) Request.zero ≠
      ⟨[0xFF], [0xFF], [0xFF], ascii "pending"⟩ := by
  decide

/-! ### `initLedger` -/

/-- The ledger that `initLedger` leaves: ten bindings on top of the input. -/
theorem initLedger_eq (l : Ledger) :
    initLedger l = (Response.Success [],
      PutState (PutState (PutState (PutState (PutState (PutState (PutState (PutState (PutState
        (PutState l
          (ascii "REQ0") (Marshal ⟨ascii "PR0", ascii "PA3", ascii "lifestyle", ascii "pending"⟩))
          (ascii "REQ1") (Marshal ⟨ascii "PR1", ascii "PA2", ascii "history", ascii "accepted"⟩))
          (ascii "REQ2") (Marshal ⟨ascii "PR2", ascii "PA1", ascii "medication", ascii "denied"⟩))
          (ascii "REQ3") (Marshal ⟨ascii "PR3", ascii "PA0", ascii "history", ascii "pending"⟩))
          (ascii "REQ4") (Marshal ⟨ascii "PR0", ascii "PA3", ascii "lifestyle", ascii "accepted"⟩))
          (ascii "REQ5") (Marshal ⟨ascii "PR1", ascii "PA2", ascii "history", ascii "accepted"⟩))
          (ascii "REQ6") (Marshal ⟨ascii "PR2", ascii "PA1", ascii "medication", ascii "accepted"⟩))
          (ascii "REQ7") (Marshal ⟨ascii "PR3", ascii "PA0", ascii "lifestyle", ascii "denied"⟩))
          (ascii "REQ8") (Marshal ⟨ascii "PR0", ascii "PA3", ascii "history", ascii "pending"⟩))
          (ascii "REQ9") (Marshal ⟨ascii "PR1", ascii "PA2", ascii "medication", ascii "pending"⟩)) := by
  rfl


/-- Claim C2. From any ledger, `initLedger` returns success with an empty
payload; afterwards each key `REQ0` .. `REQ9` decodes to the record listed for
it, and every key other than `REQ0` .. `REQ9` is bound as it was before. -/
theorem initLedger_correct (l : Ledger) :
    (initLedger l).1 = Response.Success [] ∧
    Unmarshal (GetState (initLedger l).2 (ascii "REQ0")) Request.zero =
      ⟨ascii "PR0", ascii "PA3", ascii "lifestyle", ascii "pending"⟩ ∧
    Unmarshal (GetState (initLedger l).2 (ascii "REQ1")) Request.zero =
      ⟨ascii "PR1", ascii "PA2", ascii "history", ascii "accepted"⟩ ∧
    Unmarshal (GetState (initLedger l).2 (ascii "REQ2")) Request.zero =
      ⟨ascii "PR2", ascii "PA1", ascii "medication", ascii "denied"⟩ ∧
    Unmarshal (GetState (initLedger l).2 (ascii "REQ3")) Request.zero =
      ⟨ascii "PR3", ascii "PA0", ascii "history", ascii "pending"⟩ ∧
    Unmarshal (GetState (initLedger l).2 (ascii "REQ4")) Request.zero =
      ⟨ascii "PR0", ascii "PA3", ascii "lifestyle", ascii "accepted"⟩ ∧
    Unmarshal (GetState (initLedger l).2 (ascii "REQ5")) Request.zero =
      ⟨ascii "PR1", ascii "PA2", ascii "history", ascii "accepted"⟩ ∧
    Unmarshal (GetState (initLedger l).2 (ascii "REQ6")) Request.zero =
      ⟨ascii "PR2", ascii "PA1", ascii "medication", ascii "accepted"⟩ ∧
    Unmarshal (GetState (initLedger l).2 (ascii "REQ7")) Request.zero =
      ⟨ascii "PR3", ascii "PA0", ascii "lifestyle", ascii "denied"⟩ ∧
    Unmarshal (GetState (initLedger l).2 (ascii "REQ8")) Request.zero =
      ⟨ascii "PR0", ascii "PA3", ascii "history", ascii "pending"⟩ ∧
    Unmarshal (GetState (initLedger l).2 (ascii "REQ9")) Request.zero =
      ⟨ascii "PR1", ascii "PA2", ascii "medication", ascii "pending"⟩ ∧
    (∀ k, k ∉ [ascii "REQ0", ascii "REQ1", ascii "REQ2", ascii "REQ3", ascii "REQ4",
        ascii "REQ5", ascii "REQ6", ascii "REQ7", ascii "REQ8", ascii "REQ9"] →
      (initLedger l).2.lookup k = l.lookup k) := by
  have rt : ∀ r : Request, ValidString r.ProviderID = true → ValidString r.PatientID = true →
      ValidString r.Category = true → ValidString r.Status = true →
      Unmarshal (Marshal r) Request.zero = r :=
    fun r => Unmarshal_Marshal_valid r Request.zero
  have g0 : GetState (initLedger l).2 (ascii "REQ0") =
      Marshal ⟨ascii "PR0", ascii "PA3", ascii "lifestyle", ascii "pending"⟩ := rfl
  have g1 : GetState (initLedger l).2 (ascii "REQ1") =
      Marshal ⟨ascii "PR1", ascii "PA2", ascii "history", ascii "accepted"⟩ := rfl
  have g2 : GetState (initLedger l).2 (ascii "REQ2") =
      Marshal ⟨ascii "PR2", ascii "PA1", ascii "medication", ascii "denied"⟩ := rfl
  have g3 : GetState (initLedger l).2 (ascii "REQ3") =
      Marshal ⟨ascii "PR3", ascii "PA0", ascii "history", ascii "pending"⟩ := rfl
  have g4 : GetState (initLedger l).2 (ascii "REQ4") =
      Marshal ⟨ascii "PR0", ascii "PA3", ascii "lifestyle", ascii "accepted"⟩ := rfl
  have g5 : GetState (initLedger l).2 (ascii "REQ5") =
      Marshal ⟨ascii "PR1", ascii "PA2", ascii "history", ascii "accepted"⟩ := rfl
  have g6 : GetState (initLedger l).2 (ascii "REQ6") =
      Marshal ⟨ascii "PR2", ascii "PA1", ascii "medication", ascii "accepted"⟩ := rfl
  have g7 : GetState (initLedger l).2 (ascii "REQ7") =
      Marshal ⟨ascii "PR3", ascii "PA0", ascii "lifestyle", ascii "denied"⟩ := rfl
  have g8 : GetState (initLedger l).2 (ascii "REQ8") =
      Marshal ⟨ascii "PR0", ascii "PA3", ascii "history", ascii "pending"⟩ := rfl
  have g9 : GetState (initLedger l).2 (ascii "REQ9") =
      Marshal ⟨ascii "PR1", ascii "PA2", ascii "medication", ascii "pending"⟩ := rfl
  rw [g0, g1, g2, g3, g4, g5, g6, g7, g8, g9]
  refine ⟨rfl, rt _ (by decide) (by decide) (by decide) (by decide),
    rt _ (by decide) (by decide) (by decide) (by decide),
    rt _ (by decide) (by decide) (by decide) (by decide),
    rt _ (by decide) (by decide) (by decide) (by decide),
    rt _ (by decide) (by decide) (by decide) (by decide),
    rt _ (by decide) (by decide) (by decide) (by decide),
    rt _ (by decide) (by decide) (by decide) (by decide),
    rt _ (by decide) (by decide) (by decide) (by decide),
    rt _ (by decide) (by decide) (by decide) (by decide),
    rt _ (by decide) (by decide) (by decide) (by decide), ?_⟩
  intro k hk
  simp only [List.mem_cons, List.mem_singleton, List.not_mem_nil, or_false, not_or] at hk
  obtain ⟨k0, k1, k2, k3, k4, k5, k6, k7, k8, k9⟩ := hk
  rw [initLedger_eq]
  simp only [lookup_PutState_ne _ _ _ k k0, lookup_PutState_ne _ _ _ k k1,
    lookup_PutState_ne _ _ _ k k2, lookup_PutState_ne _ _ _ k k3, lookup_PutState_ne _ _ _ k k4,
    lookup_PutState_ne _ _ _ k k5, lookup_PutState_ne _ _ _ k k6, lookup_PutState_ne _ _ _ k k7,
    lookup_PutState_ne _ _ _ k k8, lookup_PutState_ne _ _ _ k k9]

/-- Witness of claim C2: seeding a ledger that already binds `REQ3` and `OTHER`;
`REQ3` is overwritten and `OTHER` is left alone. -/
theorem initLedger_correct_witness :
    Unmarshal (GetState (initLedger [(ascii "REQ3", ascii "junk"), (ascii "OTHER", ascii "x")]).2
        (ascii "REQ3")) Request.zero =
      ⟨ascii "PR3", ascii "PA0", ascii "history", ascii "pending"⟩ ∧
    (initLedger [(ascii "REQ3", ascii "junk"), (ascii "OTHER", ascii "x")]).2.lookup
        (ascii "OTHER") = some (ascii "x") :=
  ⟨(initLedger_correct _).2.2.2.2.1, (initLedger_correct _).2.2.2.2.2.2.2.2.2.2.2 _ (by decide)⟩

/-! ### `response` and `revoke` -/

/-- Claim C3 (as amended). For every ledger in which `key` holds the encoding of
a request `R` whose `PatientID` is well-formed UTF-8, and every well-formed
UTF-8 string `newStatus`, the status update `response([key, newStatus,
R.PatientID])` returns success and leaves `key` holding a record whose `Status`
equals `newStatus` (and whose `PatientID` is still `R.PatientID`). -/
theorem response_match_updates (l : Ledger) (key newStatus : GoString) (R : Request)
    (hkey : l.lookup key = some (Marshal R)) (hp : ValidString R.PatientID = true)
    (hs : ValidString newStatus = true) :
    (response l [key, newStatus, R.PatientID]).1 = Response.Success [] ∧
    (Unmarshal (GetState (response l [key, newStatus, R.PatientID]).2 key) Request.zero).Status =
      newStatus ∧
    (Unmarshal (GetState (response l [key, newStatus, R.PatientID]).2 key)
      Request.zero).PatientID = R.PatientID := by
  have hdec : Unmarshal (GetState l key) Request.zero =
      ⟨coerceUTF8 R.ProviderID, R.PatientID, coerceUTF8 R.Category, coerceUTF8 R.Status⟩ := by
    rw [GetState_of_lookup l key _ hkey, Unmarshal_Marshal, coerceUTF8_of_valid _ hp]
  have hresp : response l [key, newStatus, R.PatientID] =
      (Response.Success [], PutState l key
        (Marshal ⟨coerceUTF8 R.ProviderID, R.PatientID, coerceUTF8 R.Category, newStatus⟩)) := by
    simp only [response, hdec, if_true]
  rw [hresp]
  simp only [GetState_PutState_self, Unmarshal_Marshal, coerceUTF8_of_valid _ hp,
    coerceUTF8_of_valid _ hs, and_self]

/-- Witness of claim C3: accepting the pending request stored under `REQ0`. -/
theorem response_match_updates_witness :
    (Unmarshal (GetState (response
        [(ascii "REQ0", Marshal ⟨ascii "PR0", ascii "PA3", ascii "lifestyle", ascii "pending"⟩)]
        [ascii "REQ0", ascii "accepted", ascii "PA3"]).2 (ascii "REQ0")) Request.zero).Status =
      ascii "accepted" :=
  (response_match_updates
    [(ascii "REQ0", Marshal ⟨ascii "PR0", ascii "PA3", ascii "lifestyle", ascii "pending"⟩)]
    (ascii "REQ0") (ascii "accepted") ⟨ascii "PR0", ascii "PA3", ascii "lifestyle", ascii "pending"⟩
    (by decide) (by decide) (by decide)).2.1

/-- Counterexample to claim C3 as stated. First, the record under `REQ0` is the
encoding of a request whose `PatientID` is the single byte `0xFF`; the update
called with that same `PatientID` and `"accepted"` leaves the ledger as it was,
and the stored `Status` is still `"pending"`. Second, for the seeded record of
patient `PA3` the update to the status `0xFF` is written, but the `Status` read
back is U+FFFD, not the byte supplied. -/
theorem response_match_counterexample :
    (response [(ascii "REQ0", Marshal ⟨ascii "PR0", [0xFF], ascii "history", ascii "pending"⟩)]
        [ascii "REQ0", ascii "accepted", [0xFF]]).2 =
      [(ascii "REQ0", Marshal ⟨ascii "PR0", [0xFF], ascii "history", ascii "pending"⟩)] ∧
    (Unmarshal (GetState (response
        [(ascii "REQ0", Marshal ⟨ascii "PR0", [0xFF], ascii "history", ascii "pending"⟩)]
        [ascii "REQ0", ascii "accepted", [0xFF]]).2 (ascii "REQ0")) Request.zero).Status ≠
      ascii "accepted" ∧
    (Unmarshal (GetState (response
        [(ascii "REQ0", Marshal ⟨ascii "PR0", ascii "PA3", ascii "lifestyle", ascii "pending"⟩)]
        [ascii "REQ0", [0xFF], ascii "PA3"]).2 (ascii "REQ0")) Request.zero).Status ≠ [0xFF] := by
  decide

/-- Claim C4. Whenever the record decoded from the value at `key` has a
`PatientID` different from `expectedPatientID`, `response([key, newStatus,
expectedPatientID])` returns success with an empty payload and the ledger it
leaves is the input ledger. -/
theorem response_mismatch_noop (l : Ledger) (key newStatus expectedPatientID : GoString)
    (h : (Unmarshal (GetState l key) Request.zero).PatientID ≠ expectedPatientID) :
    response l [key, newStatus, expectedPatientID] = (Response.Success [], l) := by
  simp only [response, if_neg h]

/-- Witness of claim C4: the update of `REQ0` (patient `PA3`) called for patient
`PA2`. -/
theorem response_mismatch_noop_witness :
    response [(ascii "REQ0", Marshal ⟨ascii "PR0", ascii "PA3", ascii "lifestyle", ascii "pending"⟩)]
        [ascii "REQ0", ascii "accepted", ascii "PA2"] =
      (Response.Success [],
        [(ascii "REQ0", Marshal ⟨ascii "PR0", ascii "PA3", ascii "lifestyle", ascii "pending"⟩)]) :=
  response_mismatch_noop _ _ _ _ (by decide)

/-- Claim C5. For every ledger and key: if the record decoded from the value at
`key` has `Status` `"accepted"`, `revoke([key])` returns success with an empty
payload and the record then stored at `key` has `Status` `"revoked"`; if the
decoded `Status` is anything else, it returns the failure `Cannot revoke.` and
the ledger is unchanged; an absent key is such a case. -/
theorem revoke_correct (l : Ledger) (key : GoString) :
    ((Unmarshal (GetState l key) Request.zero).Status = ascii "accepted" →
      (revoke l [key]).1 = Response.Success [] ∧
      (Unmarshal (GetState (revoke l [key]).2 key) Request.zero).Status = ascii "revoked") ∧
    ((Unmarshal (GetState l key) Request.zero).Status ≠ ascii "accepted" →
      revoke l [key] = (Response.Error (ascii "Cannot revoke."), l)) ∧
    (l.lookup key = none → revoke l [key] = (Response.Error (ascii "Cannot revoke."), l)) := by
  refine ⟨fun h => ?_, fun h => ?_, fun h => ?_⟩
  · simp only [revoke, if_pos h, GetState_PutState_self, Unmarshal_Marshal,
      coerceUTF8_of_valid _ valid_revoked, and_self]
  · simp only [revoke, if_neg h]
  · have hz : (Unmarshal (GetState l key) Request.zero).Status ≠ ascii "accepted" := by
      rw [GetState_of_absent l key h, Unmarshal_nil]
      decide
    simp only [revoke, if_neg hz]

/-- Witness of claim C5: revoking the accepted request under `REQ1`, and failing
to revoke the pending request under `REQ0`. -/
theorem revoke_correct_witness :
    (Unmarshal (GetState (revoke
        [(ascii "REQ1", Marshal ⟨ascii "PR1", ascii "PA2", ascii "history", ascii "accepted"⟩)]
        [ascii "REQ1"]).2 (ascii "REQ1")) Request.zero).Status = ascii "revoked" ∧
    revoke [(ascii "REQ0", Marshal ⟨ascii "PR0", ascii "PA3", ascii "lifestyle", ascii "pending"⟩)]
        [ascii "REQ0"] =
      (Response.Error (ascii "Cannot revoke."),
        [(ascii "REQ0", Marshal ⟨ascii "PR0", ascii "PA3", ascii "lifestyle", ascii "pending"⟩)]) :=
  ⟨((revoke_correct _ _).1 (by decide)).2, (revoke_correct _ _).2.1 (by decide)⟩

/-! ### Lemmas on `queryPatientRequests` and the range scan -/

theorem writeEntry_eq (buffer key value : GoString) :
    writeEntry buffer key value = buffer ++ entryText key value := by
  have e : ascii "\x7b\"Key\":\"" = ascii "\x7b\"Key\":" ++ ascii "\"" := by decide
  have e2 : ascii "\", \"Record\":" = ascii "\"" ++ ascii ", \"Record\":" := by decide
  simp only [writeEntry, entryText, e, e2, List.append_assoc]

/-- The query loop appends `queryPieces` to its buffer. -/
theorem queryLoop_eq (a0 : GoString) (as : List GoString) :
    ∀ (scan : List (GoString × GoString)) (buffer : GoString) (written : Bool),
      queryLoop (a0 :: as) scan buffer written = some (buffer ++ queryPieces a0 scan written) := by
  intro scan
  induction scan with
  | nil =>
    intro buffer written
    simp [queryLoop, queryPieces]
  | cons kv rest ih =>
    intro buffer written
    by_cases h : (Unmarshal kv.2 Request.zero).PatientID = a0
    · simp only [queryLoop, if_pos h, ih, writeEntry_eq, queryPieces]
      cases written <;> simp
    · simp only [queryLoop, if_neg h, ih, queryPieces]
      cases written <;> simp

theorem queryPieces_no_match (patientID : GoString) :
    ∀ scan : List (GoString × GoString),
      (∀ kv ∈ scan, (Unmarshal kv.2 Request.zero).PatientID ≠ patientID) →
      queryPieces patientID scan false = [] := by
  intro scan
  induction scan with
  | nil => intro _; rfl
  | cons kv rest ih =>
    intro h
    have h1 := h kv (List.mem_cons_self kv rest)
    simp only [queryPieces, if_neg h1, Bool.false_eq_true, if_false, List.nil_append]
    exact ih (fun x hx => h x (List.mem_cons_of_mem kv hx))

theorem strLt_asymm : ∀ a b : GoString, strLt a b = true → strLt b a = false := by
  intro a
  induction a with
  | nil =>
    intro b _
    cases b <;> rfl
  | cons x xs ih =>
    intro b h
    rcases b with _ | ⟨y, ys⟩
    · simp [strLt] at h
    · simp only [strLt] at h ⊢
      split_ifs at h ⊢ <;> first | omega | rfl | exact ih ys h

theorem strLt_irrefl : ∀ a : GoString, strLt a a = false := by
  intro a
  induction a with
  | nil => rfl
  | cons x xs ih => simp only [strLt, lt_self_iff_false, if_false, ih]

theorem strLt_connex : ∀ a b : GoString, strLt a b = false → strLt b a = false → a = b := by
  intro a
  induction a with
  | nil =>
    intro b h1 _
    cases b with
    | nil => rfl
    | cons y ys => simp [strLt] at h1
  | cons x xs ih =>
    intro b h1 h2
    rcases b with _ | ⟨y, ys⟩
    · simp [strLt] at h2
    · simp only [strLt] at h1 h2
      split_ifs at h1 h2 with c1 c2
      have hxy : x = y := Fin.ext (by omega)
      rw [hxy, ih ys h1 h2]

theorem strLt_trans : ∀ a b c : GoString, strLt a b = true → strLt b c = true →
    strLt a c = true := by
  intro a
  induction a with
  | nil =>
    intro b c h1 h2
    rcases b with _ | ⟨y, ys⟩
    · simp [strLt] at h1
    · rcases c with _ | ⟨z, zs⟩
      · simp [strLt] at h2
      · rfl
  | cons x xs ih =>
    intro b c h1 h2
    rcases b with _ | ⟨y, ys⟩
    · simp [strLt] at h1
    · rcases c with _ | ⟨z, zs⟩
      · simp [strLt] at h2
      · simp only [strLt] at h1 h2 ⊢
        split_ifs at h1 h2 ⊢ <;> first | omega | rfl | exact ih ys zs h1 h2

theorem mem_insertKey_iff (k a : GoString) : ∀ xs : List GoString,
    k ∈ insertKey a xs ↔ k = a ∨ k ∈ xs := by
  intro xs
  induction xs with
  | nil => simp [insertKey]
  | cons x xs ih =>
    simp only [insertKey]
    split_ifs with c1 c2
    · simp
    · simp only [List.mem_cons, ih]
      tauto
    · have hax : a = x := strLt_connex a x (by simpa using c1) (by simpa using c2)
      subst hax
      simp

theorem sorted_insertKey (a : GoString) : ∀ xs : List GoString,
    xs.Pairwise (fun p q => strLt p q = true) →
    (insertKey a xs).Pairwise (fun p q => strLt p q = true) := by
  intro xs
  induction xs with
  | nil => intro _; simp [insertKey]
  | cons x xs ih =>
    intro h
    have hx := List.pairwise_cons.1 h
    simp only [insertKey]
    split_ifs with c1 c2
    · refine List.pairwise_cons.2 ⟨?_, h⟩
      intro q hq
      rcases List.mem_cons.1 hq with rfl | hq
      · exact c1
      · exact strLt_trans _ _ _ c1 (hx.1 q hq)
    · refine List.pairwise_cons.2 ⟨?_, ih hx.2⟩
      intro q hq
      rcases (mem_insertKey_iff q a xs).1 hq with rfl | hq
      · exact c2
      · exact hx.1 q hq
    · exact h

/-- The keys of `sortedKeys` are exactly the keys bound in the ledger. -/
theorem mem_sortedKeys_iff (k : GoString) : ∀ l : Ledger,
    k ∈ sortedKeys l ↔ ∃ v, l.lookup k = some v := by
  intro l
  induction l with
  | nil => simp [sortedKeys]
  | cons kv rest ih =>
    simp only [sortedKeys, mem_insertKey_iff, ih]
    by_cases hk : k = kv.1
    · simp [List.lookup, hk]
    · have : (k == kv.1) = false := by simpa using hk
      simp [List.lookup, this, hk]

/-- The keys of `sortedKeys` ascend strictly in byte order. -/
theorem sortedKeys_sorted : ∀ l : Ledger,
    (sortedKeys l).Pairwise (fun p q => strLt p q = true) := by
  intro l
  induction l with
  | nil => simp [sortedKeys]
  | cons kv rest ih => exact sorted_insertKey kv.1 _ ih

/-- The range scan returns exactly the bound entries whose key lies in
`[startKey, endKey)`. -/
theorem mem_GetStateByRange_iff (l : Ledger) (startKey endKey : GoString)
    (kv : GoString × GoString) :
    kv ∈ GetStateByRange l startKey endKey ↔
      l.lookup kv.1 = some kv.2 ∧ strLe startKey kv.1 = true ∧ strLt kv.1 endKey = true := by
  simp only [GetStateByRange, List.mem_map, List.mem_filter, Bool.and_eq_true, mem_sortedKeys_iff]
  constructor
  · rintro ⟨k, ⟨⟨v, hv⟩, h1, h2⟩, rfl⟩
    exact ⟨by simp only [GetState, hv], h1, h2⟩
  · rintro ⟨hv, h1, h2⟩
    refine ⟨kv.1, ⟨⟨kv.2, hv⟩, h1, h2⟩, ?_⟩
    simp only [GetState, hv]

/-- The range scan returns its entries in strictly ascending byte order of the keys. -/
theorem GetStateByRange_sorted (l : Ledger) (startKey endKey : GoString) :
    (GetStateByRange l startKey endKey).Pairwise (fun p q => strLt p.1 q.1 = true) := by
  simp only [GetStateByRange]
  rw [List.pairwise_map]
  exact ((sortedKeys_sorted l).sublist (List.filter_sublist _)).imp (fun h => h)

/-! ### Reading the `Key`s of the output -/

/-- A string literal carries bytes that are no quote, backslash or control byte
as they are. -/
theorem scanString_verbatim (k Z : GoString)
    (h : k.all (fun c => decide (0x20 ≤ c.val ∧ c.val ≠ 0x22 ∧ c.val ≠ 0x5C)) = true) :
    scanString (k ++ 0x22 :: Z) = some (k, Z) := by
  induction k with
  | nil =>
    have e : (0x22 : Byte).val = 0x22 := by decide
    simp only [List.nil_append, scanString, scanStringFrom, if_pos e]
  | cons c k ih =>
    simp only [List.all_cons, Bool.and_eq_true, decide_eq_true_eq] at h
    rw [List.cons_append, scanString_plain c _ h.1.2.1 h.1.2.2 (by omega), ih h.2]
    rfl

/-- The first loop of `unquoteBytes` runs to the end of such a string when it is
well-formed UTF-8. -/
theorem plainLen_verbatim (f : Nat) : ∀ (s : GoString) (h : Nat), s.length ≤ h →
    s.all (fun c => decide (0x20 ≤ c.val ∧ c.val ≠ 0x22 ∧ c.val ≠ 0x5C)) = true →
    validLoop f s = true → plainLen h s = s.length := by
  induction f with
  | zero =>
    intro s h _ _ hv
    cases s with
    | nil => cases h <;> rfl
    | cons b t => simp [validLoop] at hv
  | succ f ih =>
    intro s h hl hc hv
    rcases s with _ | ⟨b, t⟩
    · cases h <;> rfl
    · obtain ⟨h, rfl⟩ : ∃ h0, h = h0 + 1 := ⟨h - 1, by simp only [List.length_cons] at hl; omega⟩
      simp only [List.length_cons, Nat.add_le_add_iff_right] at hl
      have hc0 := hc
      simp only [List.all_cons, Bool.and_eq_true, decide_eq_true_eq] at hc
      by_cases hb : b.val < 0x80
      · have hne : ¬ ((b.val, 1) = (RuneError, 1)) := by
          intro hcon
          have := congrArg Prod.fst hcon
          simp only [RuneError] at this
          omega
        simp only [validLoop, decodeRune_ascii b t hb, if_neg hne, List.drop_succ_cons,
          List.drop_zero] at hv
        rw [plainLen_plain h b t hb hc.1.2.1 hc.1.2.2 (by omega), ih t h hl hc.2 hv,
          List.length_cons]
        omega
      · have hb8 : 0x80 ≤ b.val := by omega
        by_cases h3 : DecodeRune (b :: t) = (RuneError, 1)
        · simp [validLoop, h3] at hv
        · obtain ⟨r, cs, y, rfl, hd, _, _, _⟩ := decodeRune_multibyte b t hb8 h3
          have hne : ¬ ((r, cs.length + 1) = (RuneError, 1)) := by
            rw [← hd y]
            exact h3
          have hdrop : List.drop (cs.length + 1) (b :: (cs ++ y)) = y := by simp
          simp only [validLoop, hd y, if_neg hne, hdrop] at hv
          have hcy : y.all (fun c => decide (0x20 ≤ c.val ∧ c.val ≠ 0x22 ∧ c.val ≠ 0x5C)) = true := by
            have := hc.2
            simp only [List.all_append, Bool.and_eq_true] at this
            exact this.2
          have hly : y.length ≤ h := by
            simp only [List.length_append] at hl
            omega
          rw [plainLen_rune h b cs y r hb8 (hd y) hne, ih y h hly hcy hv]
          simp only [List.length_cons, List.length_append]
          omega

theorem unquoteLoop_nil (g : Nat) : unquoteLoop g [] = some [] := by
  cases g <;> rfl

/-- Unquoting leaves a verbatim key as it is. -/
theorem unquote_verbatim (k : GoString) (h : verbatimKey k = true) : unquote k = some k := by
  simp only [verbatimKey, Bool.and_eq_true] at h
  have p := plainLen_verbatim k.length k k.length (Nat.le_refl _) h.1 h.2
  simp only [unquote, p, List.drop_length, List.take_length, unquoteLoop_nil, Option.map_some',
    List.append_nil]

/-- The scanner reads `Marshal r` at the front of any input. -/
theorem scanValue_Marshal (k : Nat) (r : Request) (rest : GoString) :
    scanValue (k + 6) (Marshal r ++ rest) = some (JValue.object
      [(ascii "ProviderID", JValue.string (stringLoop r.ProviderID.length r.ProviderID)),
       (ascii "PatientID", JValue.string (stringLoop r.PatientID.length r.PatientID)),
       (ascii "Category", JValue.string (stringLoop r.Category.length r.Category)),
       (ascii "Status", JValue.string (stringLoop r.Status.length r.Status))], rest) := by
  have e1 : (0x7B : Byte).val = 0x7B := by decide
  have e2 : ¬ ((0x22 : Byte).val = 0x7D) := by decide
  rw [Marshal_eq]
  simp only [List.cons_append, List.append_assoc, List.nil_append]
  rw [scanValue]
  simp only [if_pos e1, skipSpace_cons 0x22 _ (by decide), if_neg e2,
    scanMembers_more _ _ _ _ scanString_name_ProviderID,
    scanMembers_more _ _ _ _ scanString_name_PatientID,
    scanMembers_more _ _ _ _ scanString_name_Category,
    scanMembers_last _ _ _ _ scanString_name_Status, Option.map_some']

theorem skipSpace_Marshal (r : Request) (rest : GoString) :
    skipSpace (Marshal r ++ rest) = Marshal r ++ rest := by
  rw [Marshal_eq]
  exact skipSpace_cons 0x7B _ (by decide)

theorem scanString_name_Key (Z : GoString) :
    scanString (ascii "Key" ++ 0x22 :: Z) = some (ascii "Key", Z) := rfl
theorem scanString_name_Record (Z : GoString) :
    scanString (ascii "Record" ++ 0x22 :: Z) = some (ascii "Record", Z) := rfl

/-- The bytes of one entry followed by more output. -/
theorem entryText_append (key value X : GoString) :
    entryText key value ++ X = 0x7B :: 0x22 :: (ascii "Key" ++ 0x22 :: 0x3A :: 0x22 ::
      (key ++ 0x22 :: 0x2C :: 0x20 :: 0x22 :: (ascii "Record" ++ 0x22 :: 0x3A ::
      (value ++ 0x7D :: X)))) := by
  have a1 : ascii "\x7b\"Key\":\"" = 0x7B :: 0x22 :: (ascii "Key" ++ [0x22, 0x3A, 0x22]) := by
    decide
  have a2 : ascii "\", \"Record\":" = 0x22 :: 0x2C :: 0x20 :: 0x22 :: (ascii "Record" ++ [0x22, 0x3A]) := by
    decide
  have a3 : ascii "\x7d" = [0x7D] := by decide
  simp only [entryText, a1, a2, a3, List.append_assoc, List.cons_append, List.nil_append]

/-- The member `"Record":<encoding>` and the closing brace of an entry. -/
theorem scanMembers_record (n : Nat) (R : Request) (X : GoString) :
    scanMembers (n + 8) (0x22 :: (ascii "Record" ++ 0x22 :: 0x3A :: (Marshal R ++ 0x7D :: X))) =
      some ([(ascii "Record", JValue.object
        [(ascii "ProviderID", JValue.string (stringLoop R.ProviderID.length R.ProviderID)),
         (ascii "PatientID", JValue.string (stringLoop R.PatientID.length R.PatientID)),
         (ascii "Category", JValue.string (stringLoop R.Category.length R.Category)),
         (ascii "Status", JValue.string (stringLoop R.Status.length R.Status))])], X) := by
  have e1 : (0x22 : Byte).val = 0x22 := by decide
  have e2 : (0x3A : Byte).val = 0x3A := by decide
  have e3 : ¬ ((0x7D : Byte).val = 0x2C) := by decide
  have e4 : (0x7D : Byte).val = 0x7D := by decide
  rw [scanMembers]
  simp only [if_pos e1, scanString_name_Record, skipSpace_cons 0x3A _ (by decide), if_pos e2,
    skipSpace_Marshal, scanValue_Marshal (n + 1), skipSpace_cons 0x7D _ (by decide), if_neg e3,
    if_pos e4]

theorem skipSpace_space (c : Byte) (X : GoString) (h : isSpace c = false) :
    skipSpace (0x20 :: c :: X) = c :: X := by
  have e : isSpace (0x20 : Byte) = true := by decide
  simp only [skipSpace, e, if_true, h, Bool.false_eq_true, if_false]

/-- The scanner reads one entry written for a verbatim key and a record
encoding as an object with the members `Key` and `Record`. -/
theorem scanValue_entry (n : Nat) (key : GoString) (R : Request) (X : GoString)
    (h : key.all (fun c => decide (0x20 ≤ c.val ∧ c.val ≠ 0x22 ∧ c.val ≠ 0x5C)) = true) :
    scanValue (n + 10) (0x7B :: 0x22 :: (ascii "Key" ++ 0x22 :: 0x3A :: 0x22 ::
      (key ++ 0x22 :: 0x2C :: 0x20 :: 0x22 :: (ascii "Record" ++ 0x22 :: 0x3A ::
      (Marshal R ++ 0x7D :: X))))) =
      some (JValue.object [(ascii "Key", JValue.string key), (ascii "Record", JValue.object
        [(ascii "ProviderID", JValue.string (stringLoop R.ProviderID.length R.ProviderID)),
         (ascii "PatientID", JValue.string (stringLoop R.PatientID.length R.PatientID)),
         (ascii "Category", JValue.string (stringLoop R.Category.length R.Category)),
         (ascii "Status", JValue.string (stringLoop R.Status.length R.Status))])], X) := by
  have e0 : (0x7B : Byte).val = 0x7B := by decide
  have e0b : ¬ ((0x22 : Byte).val = 0x7D) := by decide
  have e1 : (0x22 : Byte).val = 0x22 := by decide
  have e2 : (0x3A : Byte).val = 0x3A := by decide
  have e3 : (0x2C : Byte).val = 0x2C := by decide
  rw [scanValue]
  simp only [if_pos e0, skipSpace_cons 0x22 _ (by decide), if_neg e0b]
  rw [scanMembers]
  simp only [if_pos e1, scanString_name_Key, skipSpace_cons 0x3A _ (by decide), if_pos e2,
    skipSpace_cons 0x22 _ (by decide), scanValue_string, scanString_verbatim _ _ h,
    Option.map_some', skipSpace_cons 0x2C _ (by decide), if_pos e3,
    skipSpace_space 0x22 _ (by decide), scanMembers_record]

theorem readEntries_comma (f : Nat) (X : GoString) :
    readEntries (f + 1) (ascii "," ++ X) = readEntries f X := by
  have a : ascii "," = [0x2C] := by decide
  have e1 : ¬ ((0x2C : Byte).val = 0x5D) := by decide
  have e2 : (0x2C : Byte).val = 0x2C := by decide
  rw [a, List.cons_append, List.nil_append, readEntries]
  simp only [if_neg e1, if_pos e2]

theorem readEntries_close (f : Nat) : readEntries (f + 1) (ascii "]") = some [] := by
  have a : ascii "]" = [0x5D] := by decide
  have e1 : (0x5D : Byte).val = 0x5D := by decide
  rw [a, readEntries]
  simp only [if_pos e1, if_true]

/-- Reading one entry written for a verbatim key and a record encoding gives
that key. -/
theorem readEntries_entry (f : Nat) (key : GoString) (R : Request) (X : GoString)
    (h : verbatimKey key = true) :
    readEntries (f + 1) (entryText key (Marshal R) ++ X) =
      (readEntries f X).map (fun ks => key :: ks) := by
  have hu := unquote_verbatim key h
  simp only [verbatimKey, Bool.and_eq_true] at h
  have e1 : ¬ ((0x7B : Byte).val = 0x5D) := by decide
  have e2 : ¬ ((0x7B : Byte).val = 0x2C) := by decide
  rw [entryText_append]
  obtain ⟨n, hn⟩ : ∃ n, (0x7B :: 0x22 :: (ascii "Key" ++ 0x22 :: 0x3A :: 0x22 ::
      (key ++ 0x22 :: 0x2C :: 0x20 :: 0x22 :: (ascii "Record" ++ 0x22 :: 0x3A ::
      (Marshal R ++ 0x7D :: X))))).length + 1 = n + 10 := by
    refine ⟨(0x7B :: 0x22 :: (ascii "Key" ++ 0x22 :: 0x3A :: 0x22 ::
      (key ++ 0x22 :: 0x2C :: 0x20 :: 0x22 :: (ascii "Record" ++ 0x22 :: 0x3A ::
      (Marshal R ++ 0x7D :: X))))).length - 9, ?_⟩
    simp only [List.length_cons, List.length_append]
    omega
  rw [readEntries]
  simp only [if_neg e1, if_neg e2, hn, scanValue_entry n key R X h.1, keyMember, if_true, hu]

/-- Reading what the query loop appends, closed by the bracket, gives the keys
of the scan results whose record decodes to the patient asked for, when these
keys are verbatim and their values are record encodings. -/
theorem readEntries_queryPieces (pid : GoString) :
    ∀ (scan : List (GoString × GoString)) (written : Bool) (f : Nat),
      (∀ kv ∈ scan, (Unmarshal kv.2 Request.zero).PatientID = pid →
        verbatimKey kv.1 = true ∧ ∃ R, kv.2 = Marshal R) →
      (queryPieces pid scan written).length < f →
      readEntries f (queryPieces pid scan written ++ ascii "]") =
        some ((scan.filter
          (fun kv => decide ((Unmarshal kv.2 Request.zero).PatientID = pid))).map Prod.fst) := by
  intro scan
  induction scan with
  | nil =>
    intro written f _ hf
    obtain ⟨f, rfl⟩ : ∃ g, f = g + 1 := ⟨f - 1, by omega⟩
    simp only [queryPieces, List.nil_append, readEntries_close, List.filter_nil, List.map_nil]
  | cons kv rest ih =>
    intro written f hyp hf
    have hrest : ∀ kv0 ∈ rest, (Unmarshal kv0.2 Request.zero).PatientID = pid →
        verbatimKey kv0.1 = true ∧ ∃ R, kv0.2 = Marshal R :=
      fun kv0 h0 => hyp kv0 (List.mem_cons_of_mem kv h0)
    have hcomma : (ascii ",").length = 1 := by decide
    have hpos : 1 ≤ (entryText kv.1 kv.2).length := by
      have a3 : (ascii "\x7d").length = 1 := by decide
      simp only [entryText, List.length_append, a3]
      omega
    by_cases m : (Unmarshal kv.2 Request.zero).PatientID = pid
    · obtain ⟨hk, R, hR⟩ := hyp kv (List.mem_cons_self kv rest) m
      have hfil : ((kv :: rest).filter
          (fun kv => decide ((Unmarshal kv.2 Request.zero).PatientID = pid))).map Prod.fst =
          kv.1 :: (rest.filter
            (fun kv => decide ((Unmarshal kv.2 Request.zero).PatientID = pid))).map Prod.fst := by
        simp only [List.filter_cons, m, decide_True, if_true, List.map_cons]
      rw [hfil]
      cases written with
      | true =>
        simp only [queryPieces, if_pos m, if_true, List.length_append, hcomma] at hf ⊢
        obtain ⟨f, rfl⟩ : ∃ g, f = g + 2 := ⟨f - 2, by omega⟩
        rw [List.append_assoc, readEntries_comma, hR, List.append_assoc, readEntries_entry _ _ _ _ hk,
          ih true f hrest (by omega)]
        rfl
      | false =>
        simp only [queryPieces, if_pos m, Bool.false_eq_true, if_false, List.nil_append,
          List.length_append] at hf ⊢
        obtain ⟨f, rfl⟩ : ∃ g, f = g + 1 := ⟨f - 1, by omega⟩
        rw [hR, List.append_assoc, readEntries_entry _ _ _ _ hk, ih true f hrest (by omega)]
        rfl
    · have hfil : ((kv :: rest).filter
          (fun kv => decide ((Unmarshal kv.2 Request.zero).PatientID = pid))).map Prod.fst =
          (rest.filter
            (fun kv => decide ((Unmarshal kv.2 Request.zero).PatientID = pid))).map Prod.fst := by
        simp only [List.filter_cons, m, decide_False, Bool.false_eq_true, if_false]
      rw [hfil]
      cases written with
      | true =>
        simp only [queryPieces, if_neg m, if_true, List.length_append, hcomma] at hf ⊢
        obtain ⟨f, rfl⟩ : ∃ g, f = g + 1 := ⟨f - 1, by omega⟩
        rw [List.append_assoc, readEntries_comma, ih true f hrest (by omega)]
      | false =>
        simp only [queryPieces, if_neg m, Bool.false_eq_true, if_false, List.nil_append] at hf ⊢
        exact ih false f hrest hf

/-! ### `queryPatientRequests` -/

set_option maxRecDepth 1000000 in
/-- Claim C6, the code at the seeded ledger. The query for patient `PA3`
succeeds and writes the three entries `REQ0`, `REQ4`, `REQ8` in that order, but
with a comma for each of the three skipped results between them: the payload
is `[e0,,,,e4,,,,e8]`, which is not well-formed JSON (`checkValid` of
`encoding/json` rejects it). -/
theorem query_seeded_PA3_malformed :
    queryPatientRequests seeded [ascii "PA3"] = some (Response.Success payloadPA3, seeded) ∧
    (scanTop payloadPA3).isNone = true := by
  decide

set_option maxRecDepth 1000000 in
/-- Claim C7, the code at the seeded ledger. For patient `PA1` the payload
returned is `[e2,,,,e6,,]`: after the first entry every scanned result adds a
comma, skipped or not. It differs from the payload the specification
describes, `[e2,e6]`. -/
theorem query_seeded_PA1_commas :
    queryPatientRequests seeded [ascii "PA1"] = some (Response.Success payloadPA1, seeded) ∧
    payloadPA1 ≠ specPayload seeded (ascii "PA1") := by
  decide

/-- Claim C8. For every ledger and `patientID` such that no scanned entry has a
decoded `PatientID` equal to `patientID`, `queryPatientRequests([patientID])`
returns success with the payload `[]`, and leaves the ledger as it was. -/
theorem query_no_match_empty (l : Ledger) (patientID : GoString)
    (h : ∀ kv ∈ GetStateByRange l (ascii "REQ0") (ascii "REQ9"),
      (Unmarshal kv.2 Request.zero).PatientID ≠ patientID) :
    queryPatientRequests l [patientID] = some (Response.Success (ascii "[]"), l) := by
  simp only [queryPatientRequests, queryLoop_eq, queryPieces_no_match patientID _ h,
    Option.map_some', List.append_nil]
  rfl

/-- Witness of claim C8: no seeded request is for patient `PA9`. -/
theorem query_no_match_empty_witness :
    queryPatientRequests seeded [ascii "PA9"] = some (Response.Success (ascii "[]"), seeded) :=
  query_no_match_empty seeded (ascii "PA9") (by decide)

set_option maxRecDepth 1000000 in
/-- Claim C9, the code at the seeded ledger. The record under `REQ9` is for
patient `PA2`, but the scan from `REQ0` to `REQ9` does not return it, and the
payload of the query for `PA2` holds the entries of `REQ1` and `REQ5` only. -/
theorem query_seeded_PA2_misses_REQ9 :
    (Unmarshal (GetState seeded (ascii "REQ9")) Request.zero).PatientID = ascii "PA2" ∧
    (GetStateByRange seeded (ascii "REQ0") (ascii "REQ9")).map Prod.fst =
      [ascii "REQ0", ascii "REQ1", ascii "REQ2", ascii "REQ3", ascii "REQ4", ascii "REQ5",
        ascii "REQ6", ascii "REQ7", ascii "REQ8"] ∧
    queryPatientRequests seeded [ascii "PA2"] = some (Response.Success payloadPA2, seeded) := by
  decide

/-- Claim C10 (as amended). For every ledger state and every `patientID` such
that each result of the range scan from `REQ0` to `REQ9` whose record decodes to
`patientID` has a verbatim key (well-formed UTF-8, no quote, backslash or
control byte) and a value that is the encoding of a request:
`queryPatientRequests([patientID])` succeeds, its payload reads as a bracketed
list of objects, and the `Key`s appearing in it are exactly the keys of those
scan results, in scan order; every such `Key` `k` is a key stored in the ledger
with a record of that patient, and `"REQ0" <= k <= "REQ9"` in lexicographic byte
order. -/
theorem query_keys_in_window (l : Ledger) (patientID : GoString)
    (h : ∀ kv ∈ GetStateByRange l (ascii "REQ0") (ascii "REQ9"),
      (Unmarshal kv.2 Request.zero).PatientID = patientID →
        verbatimKey kv.1 = true ∧ ∃ R, kv.2 = Marshal R) :
    ∃ payload keys,
      queryPatientRequests l [patientID] = some (Response.Success payload, l) ∧
      outputKeys payload = some keys ∧
      keys = ((GetStateByRange l (ascii "REQ0") (ascii "REQ9")).filter
        (fun kv => decide ((Unmarshal kv.2 Request.zero).PatientID = patientID))).map Prod.fst ∧
      ∀ k ∈ keys, strLe (ascii "REQ0") k = true ∧ strLe k (ascii "REQ9") = true ∧
        ∃ v, l.lookup k = some v ∧ (Unmarshal v Request.zero).PatientID = patientID := by
  refine ⟨ascii "[" ++
    queryPieces patientID (GetStateByRange l (ascii "REQ0") (ascii "REQ9")) false ++ ascii "]",
    _, ?_, ?_, rfl, ?_⟩
  · simp only [queryPatientRequests, queryLoop_eq, Option.map_some']
  · have a : ascii "[" = [0x5B] := by decide
    have e : (0x5B : Byte).val = 0x5B := by decide
    rw [a, List.cons_append, List.nil_append, List.cons_append]
    simp only [outputKeys, if_pos e]
    exact readEntries_queryPieces patientID _ false _ h
      (by simp only [List.length_append]; omega)
  · intro k hk
    obtain ⟨kv, hkv, rfl⟩ := List.mem_map.1 hk
    obtain ⟨hmem, hm⟩ := List.mem_filter.1 hkv
    obtain ⟨hv, h1, h2⟩ := (mem_GetStateByRange_iff l _ _ kv).1 hmem
    exact ⟨h1, by simp only [strLe, strLt_asymm _ _ h2, Bool.not_false], kv.2, hv,
      of_decide_eq_true hm⟩

set_option maxRecDepth 1000000 in
/-- Witness of claim C10: on the ledger with records of patient `PA3` published
under `REQ10` and `REQ5x`, the `Key`s appearing in the output are `REQ10` and
`REQ5x`, both between `REQ0` and `REQ9` in lexicographic byte order. -/
theorem query_keys_in_window_witness :
    ∃ payload,
      queryPatientRequests ledgerREQ5x [ascii "PA3"] =
        some (Response.Success payload, ledgerREQ5x) ∧
      outputKeys payload = some [ascii "REQ10", ascii "REQ5x"] ∧
      ∀ k ∈ [ascii "REQ10", ascii "REQ5x"],
        strLe (ascii "REQ0") k = true ∧ strLe k (ascii "REQ9") = true ∧
        ∃ v, ledgerREQ5x.lookup k = some v ∧
          (Unmarshal v Request.zero).PatientID = ascii "PA3" := by
  have e : GetStateByRange ledgerREQ5x (ascii "REQ0") (ascii "REQ9") =
      [(ascii "REQ10", Marshal ⟨ascii "PR7", ascii "PA3", ascii "history", ascii "pending"⟩),
       (ascii "REQ5x", Marshal ⟨ascii "PR8", ascii "PA3", ascii "lifestyle", ascii "pending"⟩)] := by
    decide
  obtain ⟨payload, keys, h1, h2, h3, h4⟩ :=
    query_keys_in_window ledgerREQ5x (ascii "PA3") (by
      intro kv hkv _
      rw [e] at hkv
      simp only [List.mem_cons, List.mem_singleton, List.not_mem_nil, or_false] at hkv
      rcases hkv with rfl | rfl
      · exact ⟨by decide, ⟨_, rfl⟩⟩
      · exact ⟨by decide, ⟨_, rfl⟩⟩)
  have hkeys : keys = [ascii "REQ10", ascii "REQ5x"] := by
    rw [h3, e]
    decide
  rw [hkeys] at h2 h4
  exact ⟨payload, h1, h2, h4⟩

set_option maxRecDepth 1000000 in
/-- Counterexample to claim C10 as stated. With a record stored by
`publishRequest` under `REQ10`, the one `Key` appearing in the output is
`REQ10`, which is none of `REQ0` .. `REQ9`. With a record stored by
`publishRequest` under a key that is not verbatim (`craftedKey`), the output
reads as two entries with the `Key`s `REQ1` and `ZZZ`: neither is a stored key
and `ZZZ` lies outside the window. The same happens on a ledger state with a
value that is not the encoding of a request, for the empty patient identifier. -/
theorem query_key_outside_seeded :
    (queryPatientRequests ledgerREQ10 [ascii "PA3"] =
        some (Response.Success payloadREQ10, ledgerREQ10) ∧
      outputKeys payloadREQ10 = some [ascii "REQ10"] ∧
      ascii "REQ10" ∉ [ascii "REQ0", ascii "REQ1", ascii "REQ2", ascii "REQ3", ascii "REQ4",
        ascii "REQ5", ascii "REQ6", ascii "REQ7", ascii "REQ8", ascii "REQ9"]) ∧
    (verbatimKey craftedKey = false ∧
      queryPatientRequests ledgerCrafted [ascii "PA3"] =
        some (Response.Success payloadCrafted, ledgerCrafted) ∧
      outputKeys payloadCrafted = some [ascii "REQ1", ascii "ZZZ"] ∧
      strLe (ascii "ZZZ") (ascii "REQ9") = false ∧
      ledgerCrafted.lookup (ascii "REQ1") = none ∧ ledgerCrafted.lookup (ascii "ZZZ") = none) ∧
    (verbatimKey (ascii "REQ1") = true ∧
      queryPatientRequests ledgerForeign [[]] =
        some (Response.Success payloadForeign, ledgerForeign) ∧
      outputKeys payloadForeign = some [ascii "REQ1", ascii "ZZZ"] ∧
      strLe (ascii "ZZZ") (ascii "REQ9") = false ∧
      ledgerForeign.lookup (ascii "ZZZ") = none) := by
  refine ⟨⟨?_, ?_, ?_⟩, ⟨?_, ?_, ?_, ?_, ?_, ?_⟩, ⟨?_, ?_, ?_, ?_, ?_⟩⟩ <;> decide

/-! ### Coercion to well-formed UTF-8 -/

theorem validLoop_nil (g : Nat) : validLoop g [] = true := by
  cases g <;> rfl

/-- One step of `validLoop` over a well-formed encoding `b :: cs`. -/
theorem validLoop_chunk (g : Nat) (b : Byte) (cs X : GoString) (r : Nat)
    (hd : DecodeRune (b :: (cs ++ X)) = (r, cs.length + 1))
    (hne : ¬ ((r, cs.length + 1) = (RuneError, 1))) :
    validLoop (g + 1) (b :: (cs ++ X)) = validLoop g X := by
  have hdrop : List.drop (cs.length + 1) (b :: (cs ++ X)) = X := by simp
  simp only [validLoop, hd, if_neg hne, hdrop]

theorem decodeRune_replacement (X : GoString) :
    DecodeRune (0xEF :: ([0xBF, 0xBD] ++ X)) = (0xFFFD, [(0xBF : Byte), 0xBD].length + 1) :=
  decodeRune_three 0xEF 0xBF 0xBD X (by decide) (by decide) (by decide)

theorem ascii_ne_runeError (b : Byte) (h : b.val < 0x80) : ¬ ((b.val, 1) = (RuneError, 1)) := by
  intro hc
  have := congrArg Prod.fst hc
  simp only [RuneError] at this
  omega

/-- The coerced string is well-formed UTF-8. -/
theorem validLoop_coerceLoop (f : Nat) : ∀ (s : GoString) (g : Nat),
    (coerceLoop f s).length ≤ g → validLoop g (coerceLoop f s) = true := by
  induction f with
  | zero =>
    intro s g _
    exact validLoop_nil g
  | succ f ih =>
    intro s g hg
    rcases s with _ | ⟨b, t⟩
    · exact validLoop_nil g
    · by_cases h3 : DecodeRune (b :: t) = (RuneError, 1)
      · have hco : coerceLoop (f + 1) (b :: t) = 0xEF :: ([0xBF, 0xBD] ++ coerceLoop f t) := by
          simp only [coerceLoop, if_pos h3]
          rfl
        rw [hco] at hg ⊢
        obtain ⟨g, rfl⟩ : ∃ g', g = g' + 1 := ⟨g - 1, by simp at hg; omega⟩
        rw [validLoop_chunk g _ _ _ _ (decodeRune_replacement _) (by decide)]
        exact ih t g (by simp at hg; omega)
      · by_cases h1 : b.val < 0x80
        · have hne := ascii_ne_runeError b h1
          have hco : coerceLoop (f + 1) (b :: t) = b :: ([] ++ coerceLoop f t) := by
            simp only [coerceLoop, decodeRune_ascii b t h1, if_neg hne, List.take_succ_cons,
              List.take_zero, List.drop_succ_cons, List.drop_zero, List.singleton_append,
              List.nil_append]
          rw [hco] at hg ⊢
          obtain ⟨g, rfl⟩ : ∃ g', g = g' + 1 := ⟨g - 1, by simp at hg; omega⟩
          rw [validLoop_chunk g b [] _ b.val (decodeRune_ascii b _ h1) hne]
          exact ih t g (by simp at hg; omega)
        · obtain ⟨rn, cs, y, rfl, hdec, henc, hcs, hr⟩ :=
            decodeRune_multibyte b t (by omega) h3
          have hd := hdec y
          have hne : ¬ ((rn, cs.length + 1) = (RuneError, 1)) := by
            rw [← hd]
            exact h3
          have htake : List.take (cs.length + 1) (b :: (cs ++ y)) = b :: cs := by simp
          have hdrop : List.drop (cs.length + 1) (b :: (cs ++ y)) = y := by simp
          have hco : coerceLoop (f + 1) (b :: (cs ++ y)) = b :: (cs ++ coerceLoop f y) := by
            simp only [coerceLoop, if_neg h3]
            simp only [hd, htake, hdrop, List.cons_append]
          rw [hco] at hg ⊢
          obtain ⟨g, rfl⟩ : ∃ g', g = g' + 1 := ⟨g - 1, by simp at hg; omega⟩
          rw [validLoop_chunk g b cs _ rn (hdec _) hne]
          exact ih y g (by simp at hg; omega)

/-- Coercion yields well-formed UTF-8. -/
theorem valid_coerceUTF8 (s : GoString) : ValidString (coerceUTF8 s) = true :=
  validLoop_coerceLoop s.length s _ (Nat.le_refl _)

/-- Coercing twice is coercing once. -/
theorem coerceUTF8_idem (s : GoString) : coerceUTF8 (coerceUTF8 s) = coerceUTF8 s :=
  coerceUTF8_of_valid _ (valid_coerceUTF8 s)

/-- A string is left alone by the coercion exactly when it is well-formed UTF-8. -/
theorem coerceUTF8_eq_iff (s : GoString) : coerceUTF8 s = s ↔ ValidString s = true := by
  constructor
  · intro h
    have := valid_coerceUTF8 s
    rwa [h] at this
  · exact coerceUTF8_of_valid s

/-- The coercion either leaves the string as it is or writes a byte `0xEF`. -/
theorem coerceLoop_eq_or_mem (f : Nat) : ∀ s : GoString, s.length ≤ f →
    coerceLoop f s = s ∨ (0xEF : Byte) ∈ coerceLoop f s := by
  induction f with
  | zero =>
    intro s hs
    cases s with
    | nil => exact Or.inl rfl
    | cons b t => simp at hs
  | succ f ih =>
    intro s hs
    rcases s with _ | ⟨b, t⟩
    · exact Or.inl rfl
    · by_cases h3 : DecodeRune (b :: t) = (RuneError, 1)
      · right
        simp only [coerceLoop, if_pos h3]
        simp
      · by_cases h1 : b.val < 0x80
        · have hne := ascii_ne_runeError b h1
          have hco : coerceLoop (f + 1) (b :: t) = b :: coerceLoop f t := by
            simp only [coerceLoop, decodeRune_ascii b t h1, if_neg hne, List.take_succ_cons,
              List.take_zero, List.drop_succ_cons, List.drop_zero, List.singleton_append]
          rw [hco]
          rcases ih t (by simp at hs; omega) with h | h
          · exact Or.inl (by rw [h])
          · exact Or.inr (List.mem_cons_of_mem _ h)
        · obtain ⟨rn, cs, y, rfl, hdec, henc, hcs, hr⟩ :=
            decodeRune_multibyte b t (by omega) h3
          have hd := hdec y
          have htake : List.take (cs.length + 1) (b :: (cs ++ y)) = b :: cs := by simp
          have hdrop : List.drop (cs.length + 1) (b :: (cs ++ y)) = y := by simp
          have hco : coerceLoop (f + 1) (b :: (cs ++ y)) = b :: (cs ++ coerceLoop f y) := by
            simp only [coerceLoop, if_neg h3]
            simp only [hd, htake, hdrop, List.cons_append]
          rw [hco]
          rcases ih y (by simp at hs; omega) with h | h
          · exact Or.inl (by rw [h])
          · exact Or.inr (List.mem_cons_of_mem _ (List.mem_append_right _ h))

/-- A string whose coercion has no byte `0xEF` is left alone by the coercion. -/
theorem eq_of_coerceUTF8_eq (s t : GoString) (h : coerceUTF8 s = t) (ht : (0xEF : Byte) ∉ t) :
    s = t := by
  rcases coerceLoop_eq_or_mem s.length s (Nat.le_refl _) with h1 | h1
  · rw [← h]
    exact h1.symm
  · exact absurd (h ▸ h1) ht

/-! ### The status vocabulary -/

theorem lookup_PutState (l : Ledger) (key value k : GoString) :
    (PutState l key value).lookup k = if k = key then some value else l.lookup k := by
  by_cases h : k = key
  · rw [if_pos h, h]
    exact lookup_PutState_self l key value
  · rw [if_neg h]
    exact lookup_PutState_ne l key value k h

theorem GetState_PutState (l : Ledger) (key value k : GoString) :
    GetState (PutState l key value) k = if k = key then value else GetState l k := by
  by_cases h : k = key
  · simp only [GetState, lookup_PutState, if_pos h]
  · simp only [GetState, lookup_PutState, if_neg h]

theorem mem_of_lookup (l : Ledger) (k v : GoString) (h : l.lookup k = some v) : (k, v) ∈ l := by
  obtain ⟨l₁, l₂, rfl, _⟩ := List.lookup_eq_some_iff.1 h
  simp

/-- The ledger that `initLedger` leaves is the seeded bindings put in front of
the input ledger. -/
theorem initLedger_append (l : Ledger) : (initLedger l).2 = seeded ++ l := rfl

/-- Every record stored has its `Status` in the vocabulary: the meaning of
`validStatuses` in terms of the bindings visible in the ledger. -/
theorem validStatuses_iff (l : Ledger) :
    validStatuses l = true ↔
      ∀ k v, l.lookup k = some v → (Unmarshal v Request.zero).Status ∈ statusVocabulary := by
  simp only [validStatuses, List.all_eq_true, decide_eq_true_eq, mem_sortedKeys_iff, statusAt]
  constructor
  · intro h k v hv
    have := h k ⟨v, hv⟩
    rwa [GetState_of_lookup l k v hv] at this
  · rintro h k ⟨v, hv⟩
    rw [GetState_of_lookup l k v hv]
    exact h k v hv

theorem validStatuses_PutState (l : Ledger) (key value : GoString)
    (h : validStatuses l = true)
    (hv : (Unmarshal value Request.zero).Status ∈ statusVocabulary) :
    validStatuses (PutState l key value) = true := by
  rw [validStatuses_iff] at h ⊢
  intro k v hk
  rw [lookup_PutState] at hk
  split_ifs at hk with c
  · cases hk
    exact hv
  · exact h k v hk

theorem validStatuses_append (a b : Ledger) (ha : validStatuses a = true)
    (hb : validStatuses b = true) : validStatuses (a ++ b) = true := by
  rw [validStatuses_iff] at ha hb ⊢
  intro k v hk
  rw [List.lookup_append] at hk
  cases hka : a.lookup k with
  | none =>
    rw [hka] at hk
    exact hb k v hk
  | some w =>
    rw [hka] at hk
    simp only [Option.or_some, Option.some.injEq] at hk
    rw [← hk]
    exact ha k w hka

theorem valid_of_mem_vocabulary (s : GoString) (h : s ∈ statusVocabulary) :
    ValidString s = true := by
  simp only [statusVocabulary, List.mem_cons, List.mem_singleton, List.not_mem_nil,
    or_false] at h
  rcases h with rfl | rfl | rfl | rfl <;> decide

theorem status_Unmarshal_Marshal (r : Request) :
    (Unmarshal (Marshal r) Request.zero).Status = coerceUTF8 r.Status := by
  rw [Unmarshal_Marshal]

theorem query_ledger (l : Ledger) (args : List GoString) (r : Response × Ledger)
    (h : queryPatientRequests l args = some r) : r.2 = l := by
  simp only [queryPatientRequests] at h
  cases hq : queryLoop args (GetStateByRange l (ascii "REQ0") (ascii "REQ9")) (ascii "[") false with
  | none => rw [hq] at h; simp at h
  | some b =>
    rw [hq] at h
    simp only [Option.map_some', Option.some.injEq] at h
    rw [← h]

/-- Claim C11 (as amended). If every record stored in the ledger has its `Status`
among `pending`, `accepted`, `denied`, `revoked`, the same holds after
`publishRequest`, `initLedger`, `revoke` and `queryPatientRequests` with any
arguments, and after `response` whenever the new status it is called with is
one of the four. -/
theorem status_vocabulary_preserved (l : Ledger) (h : validStatuses l = true) :
    (∀ args, validStatuses (publishRequest l args).2 = true) ∧
    validStatuses (initLedger l).2 = true ∧
    (∀ args, validStatuses (revoke l args).2 = true) ∧
    (∀ args r, queryPatientRequests l args = some r → validStatuses r.2 = true) ∧
    (∀ args, (∀ key s p, args = [key, s, p] → s ∈ statusVocabulary) →
      validStatuses (response l args).2 = true) := by
  refine ⟨?_, ?_, ?_, ?_, ?_⟩
  · intro args
    rcases args with _ | ⟨a0, _ | ⟨a1, _ | ⟨a2, _ | ⟨a3, _ | ⟨a4, t⟩⟩⟩⟩⟩
    · exact h
    · exact h
    · exact h
    · exact h
    · refine validStatuses_PutState l a0 _ h ?_
      rw [status_Unmarshal_Marshal, coerceUTF8_of_valid _ valid_pending]
      decide
    · exact h
  · rw [initLedger_append]
    exact validStatuses_append seeded l (by decide) h
  · intro args
    rcases args with _ | ⟨a0, _ | ⟨a1, t⟩⟩
    · exact h
    · by_cases c : (Unmarshal (GetState l a0) Request.zero).Status = ascii "accepted"
      · simp only [revoke, if_pos c]
        refine validStatuses_PutState l a0 _ h ?_
        rw [status_Unmarshal_Marshal, coerceUTF8_of_valid _ valid_revoked]
        decide
      · simp only [revoke, if_neg c]
        exact h
    · exact h
  · intro args r hr
    rw [query_ledger l args r hr]
    exact h
  · intro args hs
    rcases args with _ | ⟨a0, _ | ⟨a1, _ | ⟨a2, _ | ⟨a3, t⟩⟩⟩⟩
    · exact h
    · exact h
    · exact h
    · have hv := hs a0 a1 a2 rfl
      by_cases c : (Unmarshal (GetState l a0) Request.zero).PatientID = a2
      · simp only [response, if_pos c]
        refine validStatuses_PutState l a0 _ h ?_
        rw [status_Unmarshal_Marshal, coerceUTF8_of_valid _ (valid_of_mem_vocabulary a1 hv)]
        exact hv
      · simp only [response, if_neg c]
        exact h
    · exact h

/-- Witness of claim C11: on the seeded ledger, accepting `REQ0` for patient `PA3`
keeps every stored status in the vocabulary. -/
theorem status_vocabulary_preserved_witness :
    validStatuses (response seeded [ascii "REQ0", ascii "accepted", ascii "PA3"]).2 = true :=
  (status_vocabulary_preserved seeded (by decide)).2.2.2.2 _ (by
    intro key s p hargs
    simp only [List.cons.injEq, and_true] at hargs
    rw [← hargs.2.1]
    decide)

set_option maxRecDepth 1000000 in
/-- Counterexample to claim C11 as stated: every status stored in the seeded
ledger is in the vocabulary; after `response(["REQ0", "archived", "PA3"])` the
record under `REQ0` has `Status` `"archived"`. -/
theorem status_vocabulary_counterexample :
    validStatuses seeded = true ∧
    statusAt (response seeded [ascii "REQ0", ascii "archived", ascii "PA3"]).2 (ascii "REQ0") =
      ascii "archived" ∧
    validStatuses (response seeded [ascii "REQ0", ascii "archived", ascii "PA3"]).2 = false := by
  decide

/-! ### Transitions to `revoked` -/

theorem statusAt_PutState (l : Ledger) (a v key : GoString) :
    statusAt (PutState l a v) key =
      if key = a then (Unmarshal v Request.zero).Status else statusAt l key := by
  by_cases h : key = a
  · simp only [statusAt, GetState_PutState, if_pos h]
  · simp only [statusAt, GetState_PutState, if_neg h]

/-- A step that leaves the status at `key` as it was cannot turn it into `revoked`. -/
theorem revoked_step_of_eq (before after : GoString) (h : after = before) :
    after = ascii "revoked" → before ≠ ascii "revoked" → before = ascii "accepted" :=
  fun h1 h2 => absurd (h ▸ h1) h2

/-- A step that binds a record with a status other than `revoked` cannot turn the
status at `key` into `revoked`. -/
theorem revoked_step_PutState (l : Ledger) (a v key : GoString)
    (hv : (Unmarshal v Request.zero).Status ≠ ascii "revoked") :
    statusAt (PutState l a v) key = ascii "revoked" → statusAt l key ≠ ascii "revoked" →
      statusAt l key = ascii "accepted" := by
  rw [statusAt_PutState]
  split_ifs with c
  · intro h1
    exact absurd h1 hv
  · exact revoked_step_of_eq _ _ rfl

theorem seeded_not_revoked :
    ∀ kv ∈ seeded, (Unmarshal kv.2 Request.zero).Status ≠ ascii "revoked" := by
  decide

theorem statusAt_append_seeded (l : Ledger) (key : GoString) :
    statusAt (seeded ++ l) key ≠ ascii "revoked" ∨ statusAt (seeded ++ l) key = statusAt l key := by
  cases hk : seeded.lookup key with
  | none =>
    right
    simp only [statusAt, GetState, List.lookup_append, hk, Option.none_or]
  | some v =>
    left
    have hg : GetState (seeded ++ l) key = v := by
      simp only [GetState, List.lookup_append, hk, Option.or_some]
    rw [statusAt, hg]
    exact seeded_not_revoked (key, v) (mem_of_lookup seeded key v hk)

/-- Claim C12 (as amended). For every ledger and key and every single step of
`publishRequest`, `initLedger` or `revoke` with any arguments, and every step of
`response` whose new status is not `"revoked"`: if the record at `key` has
`Status` `"revoked"` after the step and a different `Status` before it, its
`Status` before the step was `"accepted"`. -/
theorem revoked_only_from_accepted (l : Ledger) (key : GoString) :
    (∀ args, statusAt (publishRequest l args).2 key = ascii "revoked" →
      statusAt l key ≠ ascii "revoked" → statusAt l key = ascii "accepted") ∧
    (statusAt (initLedger l).2 key = ascii "revoked" →
      statusAt l key ≠ ascii "revoked" → statusAt l key = ascii "accepted") ∧
    (∀ args, statusAt (revoke l args).2 key = ascii "revoked" →
      statusAt l key ≠ ascii "revoked" → statusAt l key = ascii "accepted") ∧
    (∀ args, (∀ k s p, args = [k, s, p] → s ≠ ascii "revoked") →
      statusAt (response l args).2 key = ascii "revoked" →
      statusAt l key ≠ ascii "revoked" → statusAt l key = ascii "accepted") := by
  refine ⟨?_, ?_, ?_, ?_⟩
  · intro args
    rcases args with _ | ⟨a0, _ | ⟨a1, _ | ⟨a2, _ | ⟨a3, _ | ⟨a4, t⟩⟩⟩⟩⟩
    · exact revoked_step_of_eq _ _ rfl
    · exact revoked_step_of_eq _ _ rfl
    · exact revoked_step_of_eq _ _ rfl
    · exact revoked_step_of_eq _ _ rfl
    · refine revoked_step_PutState l a0 _ key ?_
      rw [status_Unmarshal_Marshal, coerceUTF8_of_valid _ valid_pending]
      decide
    · exact revoked_step_of_eq _ _ rfl
  · rw [initLedger_append]
    rcases statusAt_append_seeded l key with h | h
    · intro h1
      exact absurd h1 h
    · exact revoked_step_of_eq _ _ h
  · intro args
    rcases args with _ | ⟨a0, _ | ⟨a1, t⟩⟩
    · exact revoked_step_of_eq _ _ rfl
    · by_cases c : (Unmarshal (GetState l a0) Request.zero).Status = ascii "accepted"
      · simp only [revoke, if_pos c]
        rw [statusAt_PutState]
        split_ifs with ck
        · intro _ _
          rw [ck]
          exact c
        · exact revoked_step_of_eq _ _ rfl
      · simp only [revoke, if_neg c]
        exact revoked_step_of_eq _ _ rfl
    · exact revoked_step_of_eq _ _ rfl
  · intro args hs
    rcases args with _ | ⟨a0, _ | ⟨a1, _ | ⟨a2, _ | ⟨a3, t⟩⟩⟩⟩
    · exact revoked_step_of_eq _ _ rfl
    · exact revoked_step_of_eq _ _ rfl
    · exact revoked_step_of_eq _ _ rfl
    · have hv := hs a0 a1 a2 rfl
      by_cases c : (Unmarshal (GetState l a0) Request.zero).PatientID = a2
      · simp only [response, if_pos c]
        refine revoked_step_PutState l a0 _ key ?_
        rw [status_Unmarshal_Marshal]
        intro hc
        exact hv (eq_of_coerceUTF8_eq a1 _ hc (by decide))
      · simp only [response, if_neg c]
        exact revoked_step_of_eq _ _ rfl
    · exact revoked_step_of_eq _ _ rfl

/-- Witness of claim C12: revoking the accepted request under `REQ1` of the seeded
ledger; its status was `"accepted"` before the step. -/
theorem revoked_only_from_accepted_witness :
    statusAt seeded (ascii "REQ1") = ascii "accepted" :=
  (revoked_only_from_accepted seeded (ascii "REQ1")).2.2.1 [ascii "REQ1"] (by decide) (by decide)

set_option maxRecDepth 1000000 in
/-- Counterexample to claim C12 as stated: the request under `REQ0` of the seeded
ledger is `"pending"`; after `response(["REQ0", "revoked", "PA3"])` it is
`"revoked"`. -/
theorem revoked_from_pending_counterexample :
    statusAt seeded (ascii "REQ0") = ascii "pending" ∧
    statusAt (response seeded [ascii "REQ0", ascii "revoked", ascii "PA3"]).2 (ascii "REQ0") =
      ascii "revoked" := by
  decide

/-! ### Frame, argument counts and results of the status update -/

theorem Unmarshal_Marshal_coerce (r r0 : Request) : Unmarshal (Marshal r) r0 = coerceRequest r :=
  Unmarshal_Marshal r r0

/-- Claim C13. For every ledger in which `key` holds the encoding of a request
`R`: after `response([key, s, p])` for any `s`, `p`, and after `revoke([key])`,
the record stored at `key` still has the `ProviderID`, `PatientID` and
`Category` of the record stored there before; only `Status` may differ. These
three fields are `R`'s as the encoding carries them (coerced to well-formed
UTF-8), and `R`'s own whenever they are well-formed UTF-8. -/
theorem nonstatus_fields_kept (l : Ledger) (key : GoString) (R : Request)
    (h : l.lookup key = some (Marshal R)) :
    (∀ s p,
      (Unmarshal (GetState (response l [key, s, p]).2 key) Request.zero).ProviderID =
        (Unmarshal (GetState l key) Request.zero).ProviderID ∧
      (Unmarshal (GetState (response l [key, s, p]).2 key) Request.zero).PatientID =
        (Unmarshal (GetState l key) Request.zero).PatientID ∧
      (Unmarshal (GetState (response l [key, s, p]).2 key) Request.zero).Category =
        (Unmarshal (GetState l key) Request.zero).Category) ∧
    ((Unmarshal (GetState (revoke l [key]).2 key) Request.zero).ProviderID =
        (Unmarshal (GetState l key) Request.zero).ProviderID ∧
      (Unmarshal (GetState (revoke l [key]).2 key) Request.zero).PatientID =
        (Unmarshal (GetState l key) Request.zero).PatientID ∧
      (Unmarshal (GetState (revoke l [key]).2 key) Request.zero).Category =
        (Unmarshal (GetState l key) Request.zero).Category) ∧
    ((Unmarshal (GetState l key) Request.zero).ProviderID = coerceUTF8 R.ProviderID ∧
      (Unmarshal (GetState l key) Request.zero).PatientID = coerceUTF8 R.PatientID ∧
      (Unmarshal (GetState l key) Request.zero).Category = coerceUTF8 R.Category) ∧
    (ValidString R.ProviderID = true → ValidString R.PatientID = true →
      ValidString R.Category = true →
      (∀ s p,
        (Unmarshal (GetState (response l [key, s, p]).2 key) Request.zero).ProviderID =
          R.ProviderID ∧
        (Unmarshal (GetState (response l [key, s, p]).2 key) Request.zero).PatientID =
          R.PatientID ∧
        (Unmarshal (GetState (response l [key, s, p]).2 key) Request.zero).Category =
          R.Category) ∧
      (Unmarshal (GetState (revoke l [key]).2 key) Request.zero).ProviderID = R.ProviderID ∧
      (Unmarshal (GetState (revoke l [key]).2 key) Request.zero).PatientID = R.PatientID ∧
      (Unmarshal (GetState (revoke l [key]).2 key) Request.zero).Category = R.Category) := by
  have hbefore : Unmarshal (GetState l key) Request.zero = coerceRequest R := by
    rw [GetState_of_lookup l key _ h, Unmarshal_Marshal_coerce]
  have hresp : ∀ s p,
      (Unmarshal (GetState (response l [key, s, p]).2 key) Request.zero).ProviderID =
        coerceUTF8 R.ProviderID ∧
      (Unmarshal (GetState (response l [key, s, p]).2 key) Request.zero).PatientID =
        coerceUTF8 R.PatientID ∧
      (Unmarshal (GetState (response l [key, s, p]).2 key) Request.zero).Category =
        coerceUTF8 R.Category := by
    intro s p
    by_cases c : (Unmarshal (GetState l key) Request.zero).PatientID = p
    · have hr : response l [key, s, p] = (Response.Success [], PutState l key
          (Marshal { Unmarshal (GetState l key) Request.zero with Status := s })) := by
        simp only [response, if_pos c]
      rw [hr]
      simp only [GetState_PutState_self, Unmarshal_Marshal, hbefore, coerceRequest,
        coerceUTF8_idem, and_self]
    · have hr : response l [key, s, p] = (Response.Success [], l) := by
        simp only [response, if_neg c]
      rw [hr]
      simp only [hbefore, coerceRequest, and_self]
  have hrev :
      (Unmarshal (GetState (revoke l [key]).2 key) Request.zero).ProviderID =
        coerceUTF8 R.ProviderID ∧
      (Unmarshal (GetState (revoke l [key]).2 key) Request.zero).PatientID =
        coerceUTF8 R.PatientID ∧
      (Unmarshal (GetState (revoke l [key]).2 key) Request.zero).Category =
        coerceUTF8 R.Category := by
    by_cases c : (Unmarshal (GetState l key) Request.zero).Status = ascii "accepted"
    · have hr : revoke l [key] = (Response.Success [], PutState l key
          (Marshal { Unmarshal (GetState l key) Request.zero with Status := ascii "revoked" })) := by
        simp only [revoke, if_pos c]
      rw [hr]
      simp only [GetState_PutState_self, Unmarshal_Marshal, hbefore, coerceRequest,
        coerceUTF8_idem, and_self]
    · have hr : revoke l [key] = (Response.Error (ascii "Cannot revoke."), l) := by
        simp only [revoke, if_neg c]
      rw [hr]
      simp only [hbefore, coerceRequest, and_self]
  have hb : (Unmarshal (GetState l key) Request.zero).ProviderID = coerceUTF8 R.ProviderID ∧
      (Unmarshal (GetState l key) Request.zero).PatientID = coerceUTF8 R.PatientID ∧
      (Unmarshal (GetState l key) Request.zero).Category = coerceUTF8 R.Category := by
    simp only [hbefore, coerceRequest, and_self]
  refine ⟨fun s p => ?_, ?_, hb, ?_⟩
  · rw [hb.1, hb.2.1, hb.2.2]
    exact hresp s p
  · rw [hb.1, hb.2.1, hb.2.2]
    exact hrev
  · intro v1 v2 v3
    have e1 := coerceUTF8_of_valid _ v1
    have e2 := coerceUTF8_of_valid _ v2
    have e3 := coerceUTF8_of_valid _ v3
    refine ⟨fun s p => ?_, ?_⟩
    · have := hresp s p
      rw [e1, e2, e3] at this
      exact this
    · rw [e1, e2, e3] at hrev
      exact hrev

/-- Witness of claim C13: accepting the seeded request under `REQ0`, and revoking
the accepted request under `REQ1`; provider, patient and category stay as
stored before. -/
theorem nonstatus_fields_kept_witness :
    ((Unmarshal (GetState (response seeded [ascii "REQ0", ascii "accepted", ascii "PA3"]).2
        (ascii "REQ0")) Request.zero).ProviderID = ascii "PR0" ∧
      (Unmarshal (GetState (response seeded [ascii "REQ0", ascii "accepted", ascii "PA3"]).2
        (ascii "REQ0")) Request.zero).PatientID = ascii "PA3" ∧
      (Unmarshal (GetState (response seeded [ascii "REQ0", ascii "accepted", ascii "PA3"]).2
        (ascii "REQ0")) Request.zero).Category = ascii "lifestyle") ∧
    ((Unmarshal (GetState (revoke seeded [ascii "REQ1"]).2 (ascii "REQ1")) Request.zero).ProviderID =
        (Unmarshal (GetState seeded (ascii "REQ1")) Request.zero).ProviderID ∧
      (Unmarshal (GetState (revoke seeded [ascii "REQ1"]).2 (ascii "REQ1")) Request.zero).PatientID =
        (Unmarshal (GetState seeded (ascii "REQ1")) Request.zero).PatientID ∧
      (Unmarshal (GetState (revoke seeded [ascii "REQ1"]).2 (ascii "REQ1")) Request.zero).Category =
        (Unmarshal (GetState seeded (ascii "REQ1")) Request.zero).Category) :=
  ⟨((nonstatus_fields_kept seeded (ascii "REQ0")
      ⟨ascii "PR0", ascii "PA3", ascii "lifestyle", ascii "pending"⟩ (by decide)).2.2.2
      (by decide) (by decide) (by decide)).1 (ascii "accepted") (ascii "PA3"),
    (nonstatus_fields_kept seeded (ascii "REQ1")
      ⟨ascii "PR1", ascii "PA2", ascii "history", ascii "accepted"⟩ (by decide)).2.1⟩

/-- Claim C14. Wrong argument counts are rejected before any read or write: for
every ledger and argument list, `publishRequest` with other than four arguments,
`response` with other than three and `revoke` with other than one return the
failure `Incorrect number of arguments. Expecting n` for their `n`, and the
ledger is unchanged. -/
theorem wrong_arg_count_rejected (l : Ledger) (args : List GoString) :
    (args.length ≠ 4 → publishRequest l args =
      (Response.Error (ascii "Incorrect number of arguments. Expecting 4"), l)) ∧
    (args.length ≠ 3 → response l args =
      (Response.Error (ascii "Incorrect number of arguments. Expecting 3"), l)) ∧
    (args.length ≠ 1 → revoke l args =
      (Response.Error (ascii "Incorrect number of arguments. Expecting 1"), l)) := by
  refine ⟨?_, ?_, ?_⟩
  · intro h
    rcases args with _ | ⟨a0, _ | ⟨a1, _ | ⟨a2, _ | ⟨a3, _ | ⟨a4, t⟩⟩⟩⟩⟩ <;>
      first | rfl | exact absurd rfl h
  · intro h
    rcases args with _ | ⟨a0, _ | ⟨a1, _ | ⟨a2, _ | ⟨a3, t⟩⟩⟩⟩ <;>
      first | rfl | exact absurd rfl h
  · intro h
    rcases args with _ | ⟨a0, _ | ⟨a1, t⟩⟩ <;>
      first | rfl | exact absurd rfl h

/-- Witness of claim C14: `publishRequest` with three arguments, `response` with
none and `revoke` with two, on the seeded ledger. -/
theorem wrong_arg_count_rejected_witness :
    publishRequest seeded [ascii "K", ascii "PR0", ascii "PA0"] =
      (Response.Error (ascii "Incorrect number of arguments. Expecting 4"), seeded) ∧
    response seeded [] =
      (Response.Error (ascii "Incorrect number of arguments. Expecting 3"), seeded) ∧
    revoke seeded [ascii "REQ1", ascii "x"] =
      (Response.Error (ascii "Incorrect number of arguments. Expecting 1"), seeded) :=
  ⟨(wrong_arg_count_rejected seeded _).1 (by decide),
    (wrong_arg_count_rejected seeded _).2.1 (by decide),
    (wrong_arg_count_rejected seeded _).2.2 (by decide)⟩

/-- Claim C15. For every two ledgers and every argument list of length three,
`response` returns the same result on both: success with an empty payload. -/
theorem response_result_constant (l1 l2 : Ledger) (args : List GoString)
    (h : args.length = 3) :
    (response l1 args).1 = (response l2 args).1 ∧
    (response l1 args).1 = Response.Success [] := by
  have key : ∀ l : Ledger, (response l args).1 = Response.Success [] := by
    intro l
    rcases args with _ | ⟨a0, _ | ⟨a1, _ | ⟨a2, _ | ⟨a3, t⟩⟩⟩⟩
    · simp at h
    · simp at h
    · simp at h
    · by_cases c : (Unmarshal (GetState l a0) Request.zero).PatientID = a2
      · simp only [response, if_pos c]
      · simp only [response, if_neg c]
    · simp at h
  exact ⟨by rw [key l1, key l2], key l1⟩

/-- Witness of claim C15: the update of `REQ0` for patient `PA3` on the seeded
ledger (guard passes) and on the empty ledger (guard fails). -/
theorem response_result_constant_witness :
    (response seeded [ascii "REQ0", ascii "accepted", ascii "PA3"]).1 =
      (response [] [ascii "REQ0", ascii "accepted", ascii "PA3"]).1 ∧
    (response seeded [ascii "REQ0", ascii "accepted", ascii "PA3"]).1 = Response.Success [] :=
  response_result_constant seeded [] _ (by decide)

/-! ### Idempotent seeding, round trip, dispatch, missing records -/

/-- Two strictly ascending lists of keys with the same members are equal. -/
theorem sorted_ext : ∀ xs ys : List GoString,
    xs.Pairwise (fun p q => strLt p q = true) → ys.Pairwise (fun p q => strLt p q = true) →
    (∀ k, k ∈ xs ↔ k ∈ ys) → xs = ys := by
  intro xs
  induction xs with
  | nil =>
    intro ys _ _ h
    cases ys with
    | nil => rfl
    | cons y ys => exact absurd ((h y).2 (List.mem_cons_self y ys)) (List.not_mem_nil y)
  | cons x xs ih =>
    intro ys hx hy h
    rcases ys with _ | ⟨y, ys⟩
    · exact absurd ((h x).1 (List.mem_cons_self x xs)) (List.not_mem_nil x)
    · have px := List.pairwise_cons.1 hx
      have py := List.pairwise_cons.1 hy
      have hxy : x = y := by
        rcases List.mem_cons.1 ((h x).1 (List.mem_cons_self x xs)) with e | e
        · exact e
        · rcases List.mem_cons.1 ((h y).2 (List.mem_cons_self y ys)) with e2 | e2
          · exact e2.symm
          · have a1 := py.1 x e
            have a2 := px.1 y e2
            rw [strLt_asymm _ _ a1] at a2
            exact absurd a2 (by decide)
      subst hxy
      have hrest : ∀ k, k ∈ xs ↔ k ∈ ys := by
        intro k
        constructor
        · intro hk
          rcases List.mem_cons.1 ((h k).1 (List.mem_cons_of_mem x hk)) with e | e
          · have a := px.1 k hk
            rw [e, strLt_irrefl] at a
            exact absurd a (by decide)
          · exact e
        · intro hk
          rcases List.mem_cons.1 ((h k).2 (List.mem_cons_of_mem x hk)) with e | e
          · have a := py.1 k hk
            rw [e, strLt_irrefl] at a
            exact absurd a (by decide)
          · exact e
      rw [ih ys px.2 py.2 hrest]

/-- Ledgers that bind every key alike have the same sorted keys. -/
theorem sortedKeys_congr (l1 l2 : Ledger) (h : ∀ k, l1.lookup k = l2.lookup k) :
    sortedKeys l1 = sortedKeys l2 := by
  apply sorted_ext _ _ (sortedKeys_sorted l1) (sortedKeys_sorted l2)
  intro k
  rw [mem_sortedKeys_iff, mem_sortedKeys_iff, h k]

/-- Ledgers that bind every key alike stand for the same world state and answer
every range scan alike. -/
theorem worldState_congr (l1 l2 : Ledger) (h : ∀ k, l1.lookup k = l2.lookup k) :
    worldState l1 = worldState l2 ∧
    ∀ startKey endKey, GetStateByRange l1 startKey endKey = GetStateByRange l2 startKey endKey := by
  have hg : ∀ k, GetState l1 k = GetState l2 k := by
    intro k
    simp only [GetState, h k]
  have hf : (fun k => (k, GetState l1 k)) = (fun k => (k, GetState l2 k)) := by
    funext k
    rw [hg k]
  refine ⟨?_, fun s e => ?_⟩
  · simp only [worldState, sortedKeys_congr l1 l2 h, hf]
  · simp only [GetStateByRange, sortedKeys_congr l1 l2 h, hf]

/-- Two ledgers stand for the same world state exactly when they bind every key
alike. -/
theorem worldState_eq_iff (l1 l2 : Ledger) :
    worldState l1 = worldState l2 ↔ ∀ k, l1.lookup k = l2.lookup k := by
  constructor
  · intro h k
    have hkeys : sortedKeys l1 = sortedKeys l2 := by
      have := congrArg (List.map Prod.fst) h
      simpa [worldState, List.map_map, Function.comp_def] using this
    cases h1 : l1.lookup k with
    | none =>
      cases h2 : l2.lookup k with
      | none => rfl
      | some v2 =>
        have : k ∈ sortedKeys l1 := by
          rw [hkeys]
          exact (mem_sortedKeys_iff k l2).2 ⟨v2, h2⟩
        obtain ⟨v1, hv1⟩ := (mem_sortedKeys_iff k l1).1 this
        rw [h1] at hv1
        cases hv1
    | some v1 =>
      have hk1 : k ∈ sortedKeys l1 := (mem_sortedKeys_iff k l1).2 ⟨v1, h1⟩
      have hmem : (k, GetState l1 k) ∈ worldState l1 := by
        simp only [worldState, List.mem_map]
        exact ⟨k, hk1, rfl⟩
      rw [h] at hmem
      simp only [worldState, List.mem_map, Prod.mk.injEq] at hmem
      obtain ⟨k2, hk2, rfl, hg⟩ := hmem
      obtain ⟨v2, hv2⟩ := (mem_sortedKeys_iff k2 l2).1 hk2
      rw [GetState_of_lookup l2 k2 v2 hv2, GetState_of_lookup l1 k2 v1 h1] at hg
      rw [hv2, hg]
  · intro h
    exact (worldState_congr l1 l2 h).1

theorem lookup_seeded_twice (l : Ledger) (k : GoString) :
    (seeded ++ (seeded ++ l)).lookup k = (seeded ++ l).lookup k := by
  simp only [List.lookup_append]
  cases seeded.lookup k <;> rfl

/-- Claim C16. Running `initLedger` twice yields the same ledger as running it
once: the two runs leave the same world state, that is, every key is bound
alike, so every `GetState` and every range scan answers alike; the result is
the same too. -/
theorem initLedger_idempotent (L : Ledger) :
    worldState (initLedger (initLedger L).2).2 = worldState (initLedger L).2 ∧
    (∀ k, (initLedger (initLedger L).2).2.lookup k = (initLedger L).2.lookup k) ∧
    (∀ startKey endKey,
      GetStateByRange (initLedger (initLedger L).2).2 startKey endKey =
        GetStateByRange (initLedger L).2 startKey endKey) ∧
    (initLedger (initLedger L).2).1 = (initLedger L).1 := by
  have h : ∀ k, (initLedger (initLedger L).2).2.lookup k = (initLedger L).2.lookup k := by
    intro k
    rw [initLedger_append, initLedger_append]
    exact lookup_seeded_twice L k
  have hw := worldState_congr _ _ h
  exact ⟨hw.1, h, hw.2, rfl⟩

/-- Claim C17 (as amended). For every request `R`, decoding the bytes produced by
encoding `R` yields `R` with each field coerced to well-formed UTF-8 (each
byte that does not begin a well-formed encoding replaced by U+FFFD). The result
equals `R` field for field exactly when the four fields of `R` are well-formed
UTF-8; quotes, backslashes and control characters do not matter. -/
theorem record_round_trip (R : Request) :
    Unmarshal (Marshal R) Request.zero = coerceRequest R ∧
    (Unmarshal (Marshal R) Request.zero = R ↔
      ValidString R.ProviderID = true ∧ ValidString R.PatientID = true ∧
      ValidString R.Category = true ∧ ValidString R.Status = true) := by
  refine ⟨Unmarshal_Marshal_coerce R _, ?_⟩
  rw [Unmarshal_Marshal_coerce]
  rcases R with ⟨a, b, c, d⟩
  simp only [coerceRequest, Request.mk.injEq, coerceUTF8_eq_iff]

/-- Witness of claim C17: a request whose fields hold quotes, backslashes,
control characters, HTML characters and multi-byte runes. -/
theorem record_round_trip_witness :
    Unmarshal (Marshal ⟨ascii "a\"b\"", ascii "c\\d\\\\", ascii "e\n\t\r\x00\x01\x1f\x7f",
        [0x3C, 0x3E, 0x26, 0xC3, 0xA9, 0xE2, 0x80, 0xA8, 0xF0, 0x9F, 0x98, 0x80]⟩)
      Request.zero =
      ⟨ascii "a\"b\"", ascii "c\\d\\\\", ascii "e\n\t\r\x00\x01\x1f\x7f",
        [0x3C, 0x3E, 0x26, 0xC3, 0xA9, 0xE2, 0x80, 0xA8, 0xF0, 0x9F, 0x98, 0x80]⟩ :=
  (record_round_trip _).2.2 (by decide)

/-- Counterexample to claim C17 as stated: the request whose `Category` is the
single byte `0xFF` is decoded with `Category` U+FFFD. -/
theorem record_round_trip_counterexample :
    Unmarshal (Marshal ⟨ascii "PR0", ascii "PA3", [0xFF], ascii "pending"⟩) Request.zero =
      ⟨ascii "PR0", ascii "PA3", [0xEF, 0xBF, 0xBD], ascii "pending"⟩ ∧
    Unmarshal (Marshal ⟨ascii "PR0", ascii "PA3", [0xFF], ascii "pending"⟩) Request.zero ≠
      ⟨ascii "PR0", ascii "PA3", [0xFF], ascii "pending"⟩ := by
  decide

/-- Claim C18. For every ledger and argument list, `Invoke` with the function
name `publishRequest`, `initLedger`, `response` or `queryPatientRequests`
returns the result and ledger of that method, and with any other function name,
`revoke` included, the failure `Invalid Smart Contract function name.` and the
ledger unchanged. -/
theorem invoke_dispatch (l : Ledger) (args : List GoString) :
    Invoke l (ascii "publishRequest") args = some (publishRequest l args) ∧
    Invoke l (ascii "initLedger") args = some (initLedger l) ∧
    Invoke l (ascii "response") args = some (response l args) ∧
    Invoke l (ascii "queryPatientRequests") args = queryPatientRequests l args ∧
    Invoke l (ascii "revoke") args =
      some (Response.Error (ascii "Invalid Smart Contract function name."), l) ∧
    (∀ function, function ≠ ascii "publishRequest" → function ≠ ascii "initLedger" →
      function ≠ ascii "response" → function ≠ ascii "queryPatientRequests" →
      Invoke l function args =
        some (Response.Error (ascii "Invalid Smart Contract function name."), l)) := by
  have other : ∀ function, function ≠ ascii "publishRequest" → function ≠ ascii "initLedger" →
      function ≠ ascii "response" → function ≠ ascii "queryPatientRequests" →
      Invoke l function args =
        some (Response.Error (ascii "Invalid Smart Contract function name."), l) := by
    intro f h1 h2 h3 h4
    simp only [Invoke, if_neg h1, if_neg h2, if_neg h3, if_neg h4]
  have n1 : ascii "initLedger" ≠ ascii "publishRequest" := by decide
  have n2 : ascii "response" ≠ ascii "publishRequest" := by decide
  have n3 : ascii "response" ≠ ascii "initLedger" := by decide
  have n4 : ascii "queryPatientRequests" ≠ ascii "publishRequest" := by decide
  have n5 : ascii "queryPatientRequests" ≠ ascii "initLedger" := by decide
  have n6 : ascii "queryPatientRequests" ≠ ascii "response" := by decide
  refine ⟨?_, ?_, ?_, ?_, ?_, other⟩
  · simp only [Invoke, if_true]
  · simp only [Invoke, if_neg n1, if_true]
  · simp only [Invoke, if_neg n2, if_neg n3, if_true]
  · simp only [Invoke, if_neg n4, if_neg n5, if_neg n6, if_true]
  · exact other _ (by decide) (by decide) (by decide) (by decide)

/-- Witness of claim C18: the function name `deleteRequest` on the seeded ledger. -/
theorem invoke_dispatch_witness :
    Invoke seeded (ascii "deleteRequest") [ascii "REQ0"] =
      some (Response.Error (ascii "Invalid Smart Contract function name."), seeded) :=
  (invoke_dispatch seeded [ascii "REQ0"]).2.2.2.2.2 _ (by decide) (by decide) (by decide)
    (by decide)

/-- Claim C19 (as amended). For every ledger in which `key` is absent and every
`newStatus`: `response([key, newStatus, ""])` succeeds and binds `key` to the
encoding of the request with empty `ProviderID`, `PatientID`, `Category` and
`Status` `newStatus`; read back, the record has the three fields empty and
`Status` `newStatus` coerced to well-formed UTF-8, which is `newStatus` itself
when it is well-formed UTF-8. With any non-empty `p`, `response([key, newStatus,
p])` leaves the ledger unchanged and `key` absent. -/
theorem response_missing_record (l : Ledger) (key newStatus : GoString)
    (h : l.lookup key = none) :
    (response l [key, newStatus, []]).1 = Response.Success [] ∧
    (response l [key, newStatus, []]).2.lookup key = some (Marshal ⟨[], [], [], newStatus⟩) ∧
    Unmarshal (GetState (response l [key, newStatus, []]).2 key) Request.zero =
      ⟨[], [], [], coerceUTF8 newStatus⟩ ∧
    (ValidString newStatus = true →
      Unmarshal (GetState (response l [key, newStatus, []]).2 key) Request.zero =
        ⟨[], [], [], newStatus⟩) ∧
    (∀ p, p ≠ [] → response l [key, newStatus, p] = (Response.Success [], l) ∧
      (response l [key, newStatus, p]).2.lookup key = none) := by
  have hz : Unmarshal (GetState l key) Request.zero = Request.zero := by
    rw [GetState_of_absent l key h, Unmarshal_nil]
  have hr : response l [key, newStatus, []] =
      (Response.Success [], PutState l key (Marshal ⟨[], [], [], newStatus⟩)) := by
    have c : (Unmarshal (GetState l key) Request.zero).PatientID = [] := by
      rw [hz]
      rfl
    simp only [response, if_pos c]
    rw [hz]
    rfl
  have hread : Unmarshal (GetState (response l [key, newStatus, []]).2 key) Request.zero =
      ⟨[], [], [], coerceUTF8 newStatus⟩ := by
    rw [hr]
    simp only [GetState_PutState_self, Unmarshal_Marshal]
    rfl
  refine ⟨by rw [hr], by rw [hr]; exact lookup_PutState_self _ _ _, hread, ?_, ?_⟩
  · intro hv
    rw [hread, coerceUTF8_of_valid _ hv]
  · intro p hp
    have c : ¬ (Unmarshal (GetState l key) Request.zero).PatientID = p := by
      rw [hz]
      exact fun e => hp e.symm
    have hn : response l [key, newStatus, p] = (Response.Success [], l) := by
      simp only [response, if_neg c]
    exact ⟨hn, by rw [hn]; exact h⟩

/-- Witness of claim C19: on the seeded ledger the key `REQ77` is absent; the
update with an empty patient creates the record, the update for `PA3` does not. -/
theorem response_missing_record_witness :
    Unmarshal (GetState (response seeded [ascii "REQ77", ascii "accepted", []]).2 (ascii "REQ77"))
        Request.zero = ⟨[], [], [], ascii "accepted"⟩ ∧
    response seeded [ascii "REQ77", ascii "accepted", ascii "PA3"] = (Response.Success [], seeded) :=
  ⟨(response_missing_record seeded (ascii "REQ77") (ascii "accepted") (by decide)).2.2.2.1
      (by decide),
    ((response_missing_record seeded (ascii "REQ77") (ascii "accepted") (by decide)).2.2.2.2
      (ascii "PA3") (by decide)).1⟩

/-- Counterexample to claim C19 as stated: on the empty ledger, the update of the
absent key `REQ77` to the status `0xFF` with an empty patient creates a record
whose `Status` is U+FFFD, not the status supplied. -/
theorem response_missing_record_counterexample :
    (Unmarshal (GetState (response [] [ascii "REQ77", [0xFF], []]).2 (ascii "REQ77"))
        Request.zero).Status = [0xEF, 0xBF, 0xBD] ∧
    (Unmarshal (GetState (response [] [ascii "REQ77", [0xFF], []]).2 (ascii "REQ77"))
        Request.zero).Status ≠ [0xFF] := by
  decide

end Chaincode
